import Mathlib

/-!
Shallow embedding of the unit-search repository (Streamlit app `app.py` and the
FastAPI backend under `backend/`) for checking the natural-language spec.

Conventions used throughout:
* a pandas cell is `Cell`: text, a rational number, or `na` (NaN).  CSV cells
  that pandas parses as numbers are modelled as `Cell.num`; `Cell.txt` covers
  text that does not parse as a number.  Python floats are modelled as `ℚ`.
* `Cell.toStr` models Python `str(v)` (`str(float('nan')) = "nan"`); frames on
  which the source calls `.fillna("")` are passed through `fillTable` first.
* a data-frame row is an association list from column name to cell; a frame is
  `Table` (column list plus rows).
-/

deriving instance DecidableEq for Except

namespace UnitSearch

/-- A pandas cell: text, a number, or a missing value (NaN). -/
inductive Cell where
  | txt (s : String)
  | num (q : ℚ)
  | na
deriving DecidableEq

/-- Python `str(v)` on a cell (`str` of a NaN float is `"nan"`).
Numeric formatting of `num` cells is `toString`; no claim depends on the
textual form of a numeric id. -/
def Cell.toStr : Cell → String
  | .txt s => s
  | .num q => toString q
  | .na => "nan"

/-- A data-frame row: association list column-name ↦ cell. -/
abbrev Row := List (String × Cell)

/-- `row.get(col, default)` / `row[col]`: first binding of the column, else the
default (pandas returns the stored value even when it is the empty string). -/
def rowGet (r : Row) (c : String) (d : Cell) : Cell :=
  (((r.find? (fun p => p.1 = c)).map Prod.snd)).getD d

/-- A data frame: its column index and its rows. -/
structure Table where
  cols : List String
  rows : List Row
deriving DecidableEq

/-- `frame.fillna("")`: every NaN cell becomes the empty string. -/
def fillCell : Cell → Cell
  | .na => .txt ""
  | c => c

/-- `frame.fillna("")` applied to a whole table. -/
def fillTable (t : Table) : Table :=
  { t with rows := t.rows.map (fun r => r.map (fun p => (p.1, fillCell p.2))) }

/-- `str(v)` after a column-level `.fillna("")` (NaN reads back as `""`). -/
def cellStrFilled (c : Cell) : String := (fillCell c).toStr

/-- Replace (or create) one column binding of a row. -/
def setCell (r : Row) (c : String) (v : Cell) : Row :=
  (c, v) :: r.filter (fun p => p.1 ≠ c)

/-- Sorted list of strings (Python `sorted`), using the lexicographic order. -/
def sortStrings (l : List String) : List String :=
  l.mergeSort (fun a b => decide (a ≤ b))

/-- Python-dict insertion: overwrite in place when the key exists (keeping its
position, as Python dicts do), otherwise append. -/
def insertOrReplace {β : Type} (l : List (String × β)) (k : String) (v : β) :
    List (String × β) :=
  if (l.find? (fun p => p.1 = k)).isSome then
    l.map (fun p => if p.1 = k then (k, v) else p)
  else
    l ++ [(k, v)]

/-- Lookup in an association list (Python `dict.get`). -/
def alistGet {β : Type} (l : List (String × β)) (k : String) : Option β :=
  (l.find? (fun p => p.1 = k)).map Prod.snd

/-! ## Validators (`backend/ingest/validators.py`, `backend/ingest/loader.py`) -/

/-- The error taxonomy of the ingestion stage: `MissingSheetError` (from
`loader._validate`'s required-table loop), `SchemaValidationError` and
`IdConsistencyError` (from `validators.py`). -/
inductive VError where
  | missingSheet (key : String)
  | schema (label : String) (missing : List String)
  | idConsistency (label col : String) (invalid : List String) (target : String)
deriving DecidableEq

/-- `missing = [col for col in required if col not in frame.columns]`. -/
def missingCols (t : Table) (required : List String) : List String :=
  required.filter (fun c => ¬ t.cols.contains c)

/-- `ensure_required_columns`: collect every required column absent from the
frame; on any, fail with a `SchemaValidationError` carrying the sorted list. -/
def ensure_required_columns (t : Table) (required : List String) (label : String) :
    Except VError Unit :=
  if (missingCols t required).isEmpty then .ok ()
  else .error (.schema label (sortStrings (missingCols t required)))

/-- The string values of one column, after `frame[column].fillna("")`. -/
def colVals (t : Table) (c : String) : List String :=
  t.rows.map (fun r => cellStrFilled (rowGet r c .na))

/-- The invalid references of `ensure_references`: the sorted set of non-empty
column values that are not among the allowed ids. -/
def refInvalid (t : Table) (c : String) (allowed : List String) : List String :=
  sortStrings (((colVals t c).filter
    (fun v => ¬ allowed.contains v ∧ v ≠ "")).dedup)

/-- `ensure_references`: a missing column is a `SchemaValidationError`; any
dangling ids give an `IdConsistencyError` with the full sorted invalid set. -/
def ensure_references (t : Table) (c : String) (allowed : List String)
    (label target : String) : Except VError Unit :=
  if ¬ t.cols.contains c then .error (.schema label [c])
  else
    let invalid := refInvalid t c allowed
    if invalid.isEmpty then .ok () else
      .error (.idConsistency label c invalid target)

/-- The validated table bundle (`DataBundle` in `loader.py`). -/
structure DataBundle where
  members : Table
  member_generations : Table
  units : Table
  unit_members : Table
  member_aliases : Table
  units_aliases : Table
deriving DecidableEq

def REQUIRED_SHEETS : List String :=
  ["members", "member_generations", "units", "unit_members"]

def emptyMemberAliases : Table := ⟨["member_id", "alias"], []⟩
def emptyUnitsAliases : Table := ⟨["unit_id", "alias", "alias_note"], []⟩

/-- Sequencing of validation checks: first failure wins. -/
def andThen {ε β : Type} (a : Except ε Unit) (b : Except ε β) :
    Except ε β :=
  match a with
  | .error e => .error e
  | .ok _ => b

/-- `pd.to_numeric(col, errors="coerce").fillna(9999)` on one cell: a numeric
cell keeps its value, anything else (non-numeric text, NaN) becomes 9999. -/
def toNumericSentinel (c : Cell) : ℚ :=
  match c with
  | .num q => q
  | _ => 9999

/-- The loader's weight normalization: replace the `weight` column by its
numeric coercion with sentinel 9999. -/
def normalizeWeights (t : Table) : Table :=
  { t with rows := t.rows.map (fun r =>
      setCell r "weight" (.num (toNumericSentinel (rowGet r "weight" .na)))) }

/-- The ids used for reference checks: non-empty stringified ids of a column. -/
def idSet (t : Table) (c : String) : List String :=
  (colVals t c).filter (fun v => v ≠ "")

def membersRequiredCols : List String :=
  ["member_id", "display_name", "alias", "branch", "status"]
def memberGenerationsRequiredCols : List String :=
  ["member_id", "generation", "is_primary"]
def unitsRequiredCols : List String := ["unit_id", "canonical_name", "note"]
def unitMembersRequiredCols : List String := ["unit_id", "member_id", "weight"]

def lookupTable (tables : List (String × Table)) (k : String) : Option Table :=
  (tables.find? (fun p => p.1 = k)).map Prod.snd

/-- The `members` frame after `fillna("")` (empty when the key is absent; the
required-table loop has already thrown in that case). -/
def mTable (tables : List (String × Table)) : Table :=
  fillTable ((lookupTable tables "members").getD ⟨[], []⟩)

/-- The `member_generations` frame after `fillna("")`. -/
def gTable (tables : List (String × Table)) : Table :=
  fillTable ((lookupTable tables "member_generations").getD ⟨[], []⟩)

/-- The `units` frame after `fillna("")`. -/
def uTable (tables : List (String × Table)) : Table :=
  fillTable ((lookupTable tables "units").getD ⟨[], []⟩)

/-- The `unit_members` frame after `fillna("")`. -/
def umTable (tables : List (String × Table)) : Table :=
  fillTable ((lookupTable tables "unit_members").getD ⟨[], []⟩)

/-- The `member_aliases` frame, or the default empty frame (the default is
built with its two columns; a provided frame is not passed through fillna). -/
def maTable (tables : List (String × Table)) : Table :=
  (lookupTable tables "member_aliases").getD emptyMemberAliases

/-- The `units_aliases` frame, or the default empty frame. -/
def uaTable (tables : List (String × Table)) : Table :=
  (lookupTable tables "units_aliases").getD emptyUnitsAliases

/-- The member-id set used by the reference checks (non-empty ids). -/
def memberIdsOf (tables : List (String × Table)) : List String :=
  idSet (mTable tables) "member_id"

/-- The unit-id set used by the reference checks (non-empty ids). -/
def unitIdsOf (tables : List (String × Table)) : List String :=
  idSet (uTable tables) "unit_id"

/-- `DataLoader._validate`: required-table presence loop, `fillna("")`, the four
column checks, the five reference checks, then weight normalization. -/
def validate (tables : List (String × Table)) : Except VError DataBundle :=
  match REQUIRED_SHEETS.find? (fun k => (lookupTable tables k).isNone) with
  | some k => .error (.missingSheet k)
  | none =>
    let members := mTable tables
    let member_generations := gTable tables
    let units := uTable tables
    let unit_members := umTable tables
    let member_aliases := maTable tables
    let units_aliases := uaTable tables
    let member_ids := memberIdsOf tables
    let unit_ids := unitIdsOf tables
    andThen (ensure_required_columns members membersRequiredCols "members") <|
    andThen (ensure_required_columns member_generations memberGenerationsRequiredCols
      "member_generations") <|
    andThen (ensure_required_columns units unitsRequiredCols "units") <|
    andThen (ensure_required_columns unit_members unitMembersRequiredCols
      "unit_members") <|
    andThen (ensure_references member_generations "member_id" member_ids
      "member_generations" "members") <|
    andThen (ensure_references unit_members "member_id" member_ids
      "unit_members" "members") <|
    andThen (ensure_references unit_members "unit_id" unit_ids
      "unit_members" "units") <|
    andThen (ensure_references member_aliases "member_id" member_ids
      "member_aliases" "members") <|
    andThen (ensure_references units_aliases "unit_id" unit_ids
      "units_aliases" "units") <|
    .ok { members := members,
          member_generations := member_generations,
          units := units,
          unit_members := normalizeWeights unit_members,
          member_aliases := member_aliases,
          units_aliases := units_aliases }

/-! ## Feature matrix (`backend/features/matrix.py`)

The source builds a dense member × unit matrix, then L2-normalizes each row.
The final division by `√(row norm)` is irrational, so the embedding carries the
pre-normalization matrix together with row norm-squares (`nsqL`); every
property of the normalized matrix is stated through squares and signs, which
determine it (the normalized entry is `v / √(nsqL row)`, with the norm replaced
by 1 on all-zero rows). -/

/-- The effective weight of `float(row.get("weight", 1) or 1)` given the cell
value.  Python `or 1` replaces a falsy value: the number `0` and the empty
string both become `1`.  Non-empty non-numeric text makes `float()` raise
(numeric text is modelled as `num`); a NaN weight would propagate NaN values
through the matrix, which has no `ℚ` counterpart — both are modelled as
failures, and neither is reachable through the loader, which normalizes every
weight to a number first. -/
def weightEff : Cell → Option ℚ
  | .num q => some (if q = 0 then 1 else q)
  | .txt s => if s = "" then some 1 else none
  | .na => none

/-- Per-edge matrix contribution: `1.0 / (1.0 + weight)`; Python raises
`ZeroDivisionError` when the denominator is zero (effective weight `-1`). -/
def edgeValue (c : Cell) : Option ℚ :=
  match weightEff c with
  | none => none
  | some e => if 1 + e = 0 then none else some (1 / (1 + e))

/-- `mat[i, j] = v` on a list-of-rows matrix. -/
def matSet (m : List (List ℚ)) (i j : ℕ) (v : ℚ) : List (List ℚ) :=
  m.set i ((m.getD i []).set j v)

/-- The stringified member id of a `unit_members` row (`astype(str)`). -/
def umMemberId (r : Row) : String := (rowGet r "member_id" .na).toStr
/-- The stringified unit id of a `unit_members` row (`astype(str)`). -/
def umUnitId (r : Row) : String := (rowGet r "unit_id" .na).toStr
/-- The weight cell of a `unit_members` row (`row.get("weight", 1)`). -/
def umWeightCell (r : Row) : Cell := rowGet r "weight" (.num 1)

/-- One iteration of the matrix-filling loop. -/
def buildStep (memberIds unitIds : List String)
    (acc : Option (List (List ℚ))) (r : Row) : Option (List (List ℚ)) :=
  match acc with
  | none => none
  | some m =>
    match edgeValue (umWeightCell r) with
    | none => none
    | some v =>
      some (matSet m (memberIds.indexOf (umMemberId r))
        (unitIds.indexOf (umUnitId r)) v)

/-- The sorted unique member ids of the frame (the matrix row index). -/
def buildMemberIds (t : Table) : List String :=
  sortStrings ((t.rows.map umMemberId).dedup)

/-- The sorted unique unit ids of the frame (the matrix column index). -/
def buildUnitIds (t : Table) : List String :=
  sortStrings ((t.rows.map umUnitId).dedup)

/-- `np.zeros((len(member_ids), len(unit_ids)))`. -/
def buildMat0 (t : Table) : List (List ℚ) :=
  List.replicate (buildMemberIds t).length
    (List.replicate (buildUnitIds t).length (0 : ℚ))

/-- `build_member_unit_matrix`: sorted unique row/column ids, dense matrix
filled edge by edge (`none` models the Python exceptions described at
`weightEff`/`edgeValue`).  The returned matrix is pre-normalization; see the
section comment. -/
def build_member_unit_matrix (t : Table) :
    Option (List String × List String × List (List ℚ)) :=
  if t.rows.isEmpty then some ([], [], [])
  else
    match t.rows.foldl (buildStep (buildMemberIds t) (buildUnitIds t))
        (some (buildMat0 t)) with
    | none => none
    | some m => some (buildMemberIds t, buildUnitIds t, m)

/-- Dot product of two rows (`row @ target`; NumPy on equal-length rows). -/
def dotL (a b : List ℚ) : ℚ := (List.zipWith (· * ·) a b).sum

/-- The squared L2 norm of a row. -/
def nsqL (a : List ℚ) : ℚ := (a.map (fun x => x * x)).sum

/-! ## Cosine similarity (`backend/features/similarity.py`)

A similarity score of the source is `dot(norm_j, norm_t) = d_j / (√n_j · √n_t)`
where `d_j = dotL row_j row_t` and `n_i = nsqL row_i` (with `√n` replaced by 1
on all-zero rows, where the dot is 0 anyway).  The embedding represents the
score of row `j` by the pair `(d_j, n_j)` — the target factor `1/√n_t` is
common to all compared scores — and compares these pairs exactly as the floats
compare: by sign, then by cross-multiplied squares. -/

/-- `matrix.size`: total number of entries of the (rectangular) matrix. -/
def matSize (m : List (List ℚ)) : ℕ := m.length * (m.headD []).length

/-- Score comparison: decides `d₁/√n₁ ≤ d₂/√n₂` without square roots
(`n₁, n₂ ≥ 0`; a zero `n` only occurs with a zero `d` on `build` outputs). -/
def scoreLeB (x y : ℚ × ℚ) : Bool :=
  if x.1 < 0 then
    if 0 ≤ y.1 then true
    else decide (y.1 * y.1 * x.2 ≤ x.1 * x.1 * y.2)
  else
    if y.1 < 0 then false
    else decide (x.1 * x.1 * y.2 ≤ y.1 * y.1 * x.2)

/-- `cosine_similarity(matrix, target_index)`: one score representation per
row, empty on an empty matrix. -/
def cosine_similarity (mat : List (List ℚ)) (idx : ℕ) : List (ℚ × ℚ) :=
  if matSize mat = 0 then []
  else
    let target := mat.getD idx []
    mat.map (fun row => (dotL row target, nsqL row))

/-- `top_similar`: empty result for an unknown member or empty matrix;
otherwise pair ids with scores, drop the query member, sort by score
descending (stable, like Python `list.sort`), truncate to `top`. -/
def top_similar (member_id : String) (member_ids : List String)
    (mat : List (List ℚ)) (top : ℕ) : List (String × (ℚ × ℚ)) :=
  if ¬ member_ids.contains member_id ∨ matSize mat = 0 then []
  else
    let idx := member_ids.indexOf member_id
    let scores := cosine_similarity mat idx
    let results := (member_ids.zip scores).filterMap
      (fun p => if p.1 = member_id then none else some p)
    (results.mergeSort (fun a b => scoreLeB b.2 a.2)).take top

/-! ## The Streamlit app's normalization and matching (`app.py`) -/

/-- A member-metadata record of `prepare_data` (`member_meta[mid]`). -/
structure AppMemberMeta where
  member_id : String
  display_name : String
  «alias» : String
  branch : String
  status : String
  generations : Finset String
deriving DecidableEq

/-- A Python float weight: a number, or NaN (`float(nan)` parses and stays
NaN). -/
inductive Weight where
  | val (q : ℚ)
  | nan
deriving DecidableEq

/-- `prepare_data`'s weight coercion: `try: float(w) except: 9999`.  A number
parses to itself, NaN parses to NaN (no exception), any text (including the
empty string) raises and yields 9999 (numeric text is modelled as `num`). -/
def coerceWeightApp (c : Cell) : Weight :=
  match c with
  | .num q => .val q
  | .na => .nan
  | .txt _ => .val 9999

/-- `<` on weights as Python compares floats: comparisons involving NaN are
always false, so a sort with NaN keys keeps such pairs unordered. -/
def wLtB (a b : Weight) : Bool :=
  match a, b with
  | .val x, .val y => decide (x < y)
  | _, _ => false

/-- One row of `find_matches`'s results (a unit plus its match score). -/
structure MatchRow where
  unitName : String
  unitId : String
  members : String
  note : String
  aliases : List String
  aliasNotes : List String
  branches : Finset String
  generations : Finset String
  statuses : Finset String
  matchScore : ℚ
  intersection : ℕ
deriving DecidableEq

/-- A prepared unit (one element of `units_prepared`). -/
structure UnitRec where
  unitId : String
  unitName : String
  aliases : List String
  aliasNotes : List String
  note : String
  memberSet : Finset String
  memberDisplay : String
  branches : Finset String
  generations : Finset String
  statuses : Finset String
deriving DecidableEq

/-- The output of `prepare_data`.  `unit_members_map` is an intermediate of the
source (consumed while building `units_prepared`), exposed here so that claims
about normalized unit membership can be stated. -/
structure PreparedData where
  units_prepared : List UnitRec
  member_meta : List (String × AppMemberMeta)
  member_alias_map : List (String × String)
  unit_members_map : List (String × List (String × Weight))
  branch_options : List String
  status_options : List String
  generation_options : List String
deriving DecidableEq

/-- `_validate_required_columns` of `app.py` (message keeps collection order,
unsorted — unlike the backend validator). -/
def validate_required_columns (t : Table) (required : List String)
    (label : String) : Except String Unit :=
  let missing := required.filter (fun c => ¬ t.cols.contains c)
  if missing.isEmpty then .ok ()
  else .error ("missing_columns:" ++ label ++ ":" ++ String.intercalate "," missing)

/-- `add_member_alias`: strip, skip empty, lowercase-key last-writer-wins. -/
def addMemberAlias (m : List (String × String)) (aliasRaw : String)
    (mid : String) : List (String × String) :=
  let a := aliasRaw.trim
  if a = "" then m else insertOrReplace m a.toLower mid

/-- State of the members loop: `member_meta`, `member_alias_map`, `branches`,
`statuses`. -/
abbrev MemberLoopState :=
  List (String × AppMemberMeta) × List (String × String) × Finset String ×
    Finset String

/-- `str(row["member_id"]).strip()` of a members row. -/
def appMemberId (r : Row) : String := ((rowGet r "member_id" .na).toStr).trim

/-- `str(row.get(c, "")).strip()` of a row. -/
def appField (r : Row) (c : String) : String :=
  ((rowGet r c (.txt "")).toStr).trim

/-- `str(row.get("display_name", mid)).strip() or mid`: the display name falls
back to the member id when blank (after trimming). -/
def appDisplay (r : Row) (mid : String) : String :=
  let d := ((rowGet r "display_name" (.txt mid)).toStr).trim
  if d = "" then mid else d

/-- The metadata record `prepare_data` stores for a members row. -/
def appMetaOf (r : Row) : AppMemberMeta :=
  ⟨appMemberId r, appDisplay r (appMemberId r), appField r "alias",
   appField r "branch", appField r "status", ∅⟩

/-- One iteration of `prepare_data`'s members loop. -/
def memberRowStep (st : MemberLoopState) (r : Row) : MemberLoopState :=
  let mid := appMemberId r
  if mid = "" then st
  else
    let branch := appField r "branch"
    let status := appField r "status"
    (insertOrReplace st.1 mid (appMetaOf r),
     addMemberAlias st.2.1 (appField r "alias") mid,
     if branch ≠ "" then insert branch st.2.2.1 else st.2.2.1,
     if status ≠ "" then insert status st.2.2.2 else st.2.2.2)

/-- One iteration of the `member_aliases` loop. -/
def aliasRowStep (amap : List (String × String)) (r : Row) :
    List (String × String) :=
  addMemberAlias amap ((rowGet r "alias" (.txt "")).toStr)
    (((rowGet r "member_id" (.txt "")).toStr).trim)

/-- One iteration of the `member_generations` loop: update the member's
generation set in place and accumulate the generation option. -/
def genRowStep (st : List (String × AppMemberMeta) × Finset String) (r : Row) :
    List (String × AppMemberMeta) × Finset String :=
  let mid := ((rowGet r "member_id" (.txt "")).toStr).trim
  let gen := ((rowGet r "generation" (.txt "")).toStr).trim
  if mid = "" ∨ gen = "" ∨ (alistGet st.1 mid).isNone then st
  else
    (st.1.map (fun p => if p.1 = mid then
        (p.1, { p.2 with generations := insert gen p.2.generations }) else p),
     insert gen st.2)

/-- One iteration of the `units_aliases` loop (aliases list, notes list). -/
def unitAliasRowStep (st : List (String × (List String × List String)))
    (r : Row) : List (String × (List String × List String)) :=
  let uid := ((rowGet r "unit_id" (.txt "")).toStr).trim
  let aliasV := ((rowGet r "alias" (.txt "")).toStr).trim
  let note := ((rowGet r "alias_note" (.txt "")).toStr).trim
  if uid = "" ∨ aliasV = "" then st
  else
    let cur := (alistGet st uid).getD ([], [])
    insertOrReplace st uid
      (cur.1 ++ [aliasV],
       if note ≠ "" then cur.2 ++ [aliasV ++ ": " ++ note] else cur.2)

/-- One iteration of the `unit_members` loop.  The frame is **not** passed
through `fillna` in `prepare_data`, so a NaN id stringifies to `"nan"` and a
NaN weight reaches `float()` (becoming `Weight.nan`, not 9999). -/
def unitMemberRowStep (meta : List (String × AppMemberMeta))
    (st : List (String × List (String × Weight))) (r : Row) :
    List (String × List (String × Weight)) :=
  let uid := ((rowGet r "unit_id" (.txt "")).toStr).trim
  let mid := ((rowGet r "member_id" (.txt "")).toStr).trim
  if uid = "" ∨ mid = "" ∨ (alistGet meta mid).isNone then st
  else
    let w := coerceWeightApp (rowGet r "weight" (.num 9999))
    insertOrReplace st uid ((alistGet st uid).getD [] ++ [(mid, w)])

/-- The branch stored for a member id (empty when unknown). -/
def metaBranch (meta : List (String × AppMemberMeta)) (m : String) : String :=
  ((alistGet meta m).map (fun x => x.branch)).getD ""

/-- The status stored for a member id (empty when unknown). -/
def metaStatus (meta : List (String × AppMemberMeta)) (m : String) : String :=
  ((alistGet meta m).map (fun x => x.status)).getD ""

/-- The generation set stored for a member id. -/
def metaGens (meta : List (String × AppMemberMeta)) (m : String) :
    Finset String :=
  ((alistGet meta m).map (fun x => x.generations)).getD ∅

/-- One iteration of the units loop: build the prepared unit record. -/
def unitRowStep (meta : List (String × AppMemberMeta))
    (umap : List (String × List (String × Weight)))
    (uamap : List (String × (List String × List String)))
    (acc : List UnitRec) (r : Row) : List UnitRec :=
  let uid := ((rowGet r "unit_id" (.txt "")).toStr).trim
  if uid = "" then acc
  else
    let membersSorted := ((alistGet umap uid).getD []).mergeSort
      (fun a b => !(wLtB b.2 a.2))
    let member_ids := membersSorted.map Prod.fst
    let member_set := member_ids.toFinset
    let branches_set := (member_set.filter
      (fun m => metaBranch meta m ≠ "")).image (metaBranch meta)
    let statuses_set := (member_set.filter
      (fun m => metaStatus meta m ≠ "")).image (metaStatus meta)
    let gen_set := member_set.biUnion (metaGens meta)
    let display_members := member_ids.filterMap
      (fun mid => (alistGet meta mid).map (fun x => x.display_name))
    let aliases := ((alistGet uamap uid).getD ([], [])).1
    let alias_notes := ((alistGet uamap uid).getD ([], [])).2
    let canonical := ((rowGet r "canonical_name" (.txt "")).toStr).trim
    let note := ((rowGet r "note" (.txt "")).toStr).trim
    acc ++ [{ unitId := uid,
              unitName := if canonical ≠ "" then canonical else aliases.headD uid,
              aliases := aliases,
              aliasNotes := alias_notes,
              note := note,
              memberSet := member_set,
              memberDisplay := String.intercalate ", " display_members,
              branches := branches_set,
              generations := gen_set,
              statuses := statuses_set }]

/-- `prepare_data`: validate required columns, `fillna("")` on members /
generations / units (but not `unit_members`), then the five loops.  A missing
required key of the dict would raise `KeyError` in Python; the claims only use
inputs with all four required tables present. -/
def prepare_data (tables : List (String × Table)) : Except String PreparedData :=
  let membersRaw := (lookupTable tables "members").getD ⟨[], []⟩
  let gensRaw := (lookupTable tables "member_generations").getD ⟨[], []⟩
  let unitsRaw := (lookupTable tables "units").getD ⟨[], []⟩
  let umRaw := (lookupTable tables "unit_members").getD ⟨[], []⟩
  andThen (validate_required_columns membersRaw membersRequiredCols "members") <|
  andThen (validate_required_columns gensRaw memberGenerationsRequiredCols
    "member_generations") <|
  andThen (validate_required_columns unitsRaw unitsRequiredCols "units") <|
  andThen (validate_required_columns umRaw unitMembersRequiredCols
    "unit_members") <|
  (let members_df := fillTable membersRaw
   let gen_df := fillTable gensRaw
   let unit_df := fillTable unitsRaw
   let member_alias_df := (lookupTable tables "member_aliases").getD
     emptyMemberAliases
   let unit_alias_df := (lookupTable tables "units_aliases").getD
     emptyUnitsAliases
   let st := members_df.rows.foldl memberRowStep ([], [], ∅, ∅)
   let meta := st.1
   let amap := member_alias_df.rows.foldl aliasRowStep st.2.1
   let genSt := gen_df.rows.foldl genRowStep (meta, ∅)
   let meta := genSt.1
   let uamap := unit_alias_df.rows.foldl unitAliasRowStep []
   let umap := umRaw.rows.foldl (unitMemberRowStep meta) []
   let units_prepared := unit_df.rows.foldl (unitRowStep meta umap uamap) []
   .ok { units_prepared := units_prepared,
         member_meta := meta,
         member_alias_map := amap,
         unit_members_map := umap,
         branch_options := st.2.2.1.sort (· ≤ ·),
         status_options := st.2.2.2.sort (· ≤ ·),
         generation_options := genSt.2.sort (· ≤ ·) })

/-- `jaccard`: 0 when both sets are empty, else `|a ∩ b| / |a ∪ b|`. -/
def jaccard (a b : Finset String) : ℚ :=
  if a = ∅ ∧ b = ∅ then 0
  else
    let inter : ℕ := (a ∩ b).card
    let union : ℕ := (a ∪ b).card
    if union > 0 then (inter : ℚ) / (union : ℚ) else 0

/-- The comparison `find_matches` sorts by:
`sort_values(by=["MatchScore", "Intersection"], ascending=[False, False])`,
i.e. `a` may precede `b` iff `(a.score, a.inter) ≥ (b.score, b.inter)`
lexicographically. -/
def matchLeB (a b : MatchRow) : Bool :=
  decide (b.matchScore < a.matchScore ∨
    (a.matchScore = b.matchScore ∧ b.intersection ≤ a.intersection))

/-- `find_matches`: keep exactly the units with non-zero intersection, score
them, sort by (score, intersection) descending.  `sort_values` uses an
unstable quicksort, so the order among fully tied rows is not specified by the
source; the embedding fixes it with a merge sort, and no claim depends on it. -/
def find_matches (units : List UnitRec) (search_set : Finset String) :
    List MatchRow :=
  let results := units.filterMap (fun u =>
    let inter := (search_set ∩ u.memberSet).card
    if inter = 0 then none
    else some { unitName := u.unitName,
                unitId := u.unitId,
                members := u.memberDisplay,
                note := u.note,
                aliases := u.aliases,
                aliasNotes := u.aliasNotes,
                branches := u.branches,
                generations := u.generations,
                statuses := u.statuses,
                matchScore := jaccard search_set u.memberSet,
                intersection := inter })
  results.mergeSort matchLeB

/-! ## Search service (`backend/services/search.py`) -/

/-- A member-metadata record stored by `SearchService.reindex`. -/
structure SvcMeta where
  member_id : String
  display_name : String
  «alias» : String
  branch : String
  status : String
deriving DecidableEq

/-- `member_aliases.groupby("member_id")["alias"].apply(list)` looked up at a
string id: the aliases (stringified) of the rows whose `member_id` cell is
that text.  (A numeric group key never matches a string lookup key.) -/
def aliasesFor (member_aliases : Table) (mid : String) : List String :=
  (member_aliases.rows.filter
    (fun r => rowGet r "member_id" .na = Cell.txt mid)).map
    (fun r => (rowGet r "alias" .na).toStr)

/-- The generation set of a member id:
`set(s.dropna().astype(str))` of the grouped `generation` column. -/
def gensFor (member_generations : Table) (mid : String) : Finset String :=
  ((member_generations.rows.filter
    (fun r => rowGet r "member_id" .na = Cell.txt mid)).filterMap
    (fun r => match rowGet r "generation" .na with
      | .na => none
      | c => some c.toStr)).toFinset

/-- The state `reindex` rebuilds: the `member_fts` rows, `member_meta`, and
`member_generations` maps of the service. -/
abbrev SearchState :=
  List (String × String) × List (String × SvcMeta) × List (String × Finset String)

/-- `str(row.get("member_id"))` of a reindexed members row. -/
def svcMemberId (r : Row) : String := (rowGet r "member_id" .na).toStr

/-- `str(row.get("display_name", mid))`: stored verbatim — the fallback to the
member id only applies when the *column* is absent, not when the value is
blank. -/
def svcDisplay (r : Row) : String :=
  (rowGet r "display_name" (.txt (svcMemberId r))).toStr

/-- The metadata record `SearchService.reindex` stores for a members row. -/
def svcMetaOf (r : Row) : SvcMeta :=
  ⟨svcMemberId r, svcDisplay r, (rowGet r "alias" (.txt "")).toStr,
   (rowGet r "branch" (.txt "")).toStr, (rowGet r "status" (.txt "")).toStr⟩

/-- One iteration of the `reindex` members loop. -/
def reindexRowStep (member_aliases member_generations : Table)
    (st : SearchState) (r : Row) : SearchState :=
  let mid := svcMemberId r
  let aliases := aliasesFor member_aliases mid
  let content := String.intercalate " "
    (([svcDisplay r, (rowGet r "alias" (.txt "")).toStr] ++ aliases).filter
      (fun c => c ≠ ""))
  (st.1 ++ [(mid, content)],
   insertOrReplace st.2.1 mid (svcMetaOf r),
   insertOrReplace st.2.2 mid (gensFor member_generations mid))

/-- `SearchService.reindex`: clear and rebuild the three maps from the
members frame. -/
def reindex (members member_aliases member_generations : Table) : SearchState :=
  members.rows.foldl (reindexRowStep member_aliases member_generations)
    ([], [], [])

/-- `MemberSearchQuery` (`backend/api/schemas.py`); the pydantic bounds
`1 ≤ limit ≤ 100` and `0 ≤ offset` are stated as hypotheses where needed. -/
structure MemberSearchQuery where
  keyword : Option String
  branch : Option (List String)
  status : Option (List String)
  generation : Option (List String)
  limit : ℕ
  offset : ℕ
deriving DecidableEq

/-- `SearchService._apply_filters`: keep ids with metadata that pass every
selected facet filter (exact membership for branch/status, non-empty
intersection for generations). -/
def apply_filters (meta : List (String × SvcMeta))
    (gens : List (String × Finset String)) (member_ids : List String)
    (q : MemberSearchQuery) : List SvcMeta :=
  let bs := q.branch.getD []
  let ss := q.status.getD []
  let gs := (q.generation.getD []).toFinset
  member_ids.filterMap (fun mid =>
    match alistGet meta mid with
    | none => none
    | some m =>
      if bs ≠ [] ∧ ¬ bs.contains m.branch then none
      else if ss ≠ [] ∧ ¬ ss.contains m.status then none
      else if gs ≠ ∅ ∧ ((alistGet gens mid).getD ∅) ∩ gs = ∅ then none
      else some m)

/-- `SearchService.search`.  The FTS5 `MATCH`/`bm25` ranking is the external
capability: `ftsRanked kw` is the full ranked id list for a keyword, of which
the SQL `LIMIT ?/OFFSET ?` returns a window.  When the keyword is absent (or
the empty string, which is falsy in Python) the SQL result is discarded and
the full `member_meta` key list is used instead — without offset or limit. -/
def search (meta : List (String × SvcMeta))
    (gens : List (String × Finset String)) (ftsRanked : String → List String)
    (q : MemberSearchQuery) : List SvcMeta :=
  let kw := q.keyword.getD ""
  let member_ids :=
    if kw ≠ "" then ((ftsRanked kw).drop q.offset).take q.limit
    else meta.map Prod.fst
  apply_filters meta gens member_ids q

/-! ## Loader state machine (`backend/ingest/loader.py`, `backend/main.py`)

`DataLoader.load_from_frames` mutates the loader object step by step:
validate, persist the six tables, set `self.cache`, rebuild the similarity
matrix, then run the reload hooks (`create_app` registers a single hook that
reindexes the search service).  A Python exception at any step propagates to
the caller while every mutation already performed stays; the embedding
returns the object state reached together with the failure, if any. -/

/-- The observable state of the loader plus the wired search service. -/
structure LoaderState where
  db : List (String × Table)
  cache : Option DataBundle
  similarity_member_ids : List String
  similarity_matrix : List (List ℚ)
  similarity_cache : List (String × List (String × ℚ))
  fts : List (String × String)
  search_meta : List (String × SvcMeta)
  search_gens : List (String × Finset String)
deriving DecidableEq

/-- A failed reload: a validation error, or the matrix rebuild raising
(`ZeroDivisionError` on an effective weight of `-1`). -/
inductive LoadFailure where
  | validation (e : VError)
  | matrixBuild
deriving DecidableEq

/-- A fresh `DataLoader` (plus search service): empty database, no cache. -/
def initialLoaderState : LoaderState := ⟨[], none, [], [], [], [], [], []⟩

/-- `DataLoader._persist`: replace the six stored tables. -/
def persist (s : LoaderState) (b : DataBundle) : LoaderState :=
  { s with db :=
      [("members", b.members),
       ("member_generations", b.member_generations),
       ("units", b.units),
       ("unit_members", b.unit_members),
       ("member_aliases", b.member_aliases),
       ("units_aliases", b.units_aliases)] }

/-- `DataLoader.load_from_frames` with the `create_app` reindex hook. -/
def load_from_frames (s : LoaderState) (tables : List (String × Table)) :
    LoaderState × Option LoadFailure :=
  match validate tables with
  | .error e => (s, some (.validation e))
  | .ok bundle =>
    let s1 := persist s bundle
    let s2 := { s1 with cache := some bundle }
    match build_member_unit_matrix bundle.unit_members with
    | none => (s2, some .matrixBuild)
    | some (mids, _uids, mat) =>
      let s3 := { s2 with similarity_member_ids := mids,
                          similarity_matrix := mat,
                          similarity_cache := [] }
      let re := reindex bundle.members bundle.member_aliases
        bundle.member_generations
      ({ s3 with fts := re.1, search_meta := re.2.1, search_gens := re.2.2 },
       none)

/-! ## Generic helper lemmas -/

theorem andThen_ok {ε β : Type} (b : Except ε β) :
    andThen (.ok ()) b = b := rfl

theorem andThen_error {ε β : Type} (e : ε) (b : Except ε β) :
    andThen (.error e) b = (.error e : Except ε β) := rfl

theorem mem_insertOrReplace {β : Type} {l : List (String × β)} {k : String}
    {v : β} {p : String × β} (h : p ∈ insertOrReplace l k v) :
    p ∈ l ∨ p = (k, v) := by
  unfold insertOrReplace at h
  split at h
  · obtain ⟨q, hq, hpq⟩ := List.mem_map.mp h
    split at hpq
    · exact Or.inr hpq.symm
    · exact Or.inl (hpq ▸ hq)
  · rcases List.mem_append.mp h with h1 | h1
    · exact Or.inl h1
    · exact Or.inr (List.mem_singleton.mp h1)

theorem alistGet_insertOrReplace_self {β : Type} (l : List (String × β))
    (k : String) (v : β) : alistGet (insertOrReplace l k v) k = some v := by
  unfold insertOrReplace alistGet
  split
  · rename_i hfind
    induction l with
    | nil => simp at hfind
    | cons a t ih =>
      by_cases ha : a.1 = k
      · simp [List.find?_cons, ha]
      · rw [List.find?_cons_of_neg _ (by simpa using ha)] at hfind
        simp only [List.map_cons, if_neg ha]
        rw [List.find?_cons_of_neg _ (by simpa using ha)]
        exact ih hfind
  · induction l with
    | nil => simp
    | cons a t ih =>
      rename_i hfind
      by_cases ha : a.1 = k
      · exact absurd (by simp [List.find?_cons, ha]) hfind
      · simp only [List.cons_append]
        rw [List.find?_cons_of_neg _ (by simpa using ha)]
        rw [List.find?_cons_of_neg _ (by simpa using ha)] at hfind
        exact ih hfind

theorem alistGet_insertOrReplace_other {β : Type} (l : List (String × β))
    (k k' : String) (v : β) (hne : k' ≠ k) :
    alistGet (insertOrReplace l k v) k' = alistGet l k' := by
  unfold insertOrReplace alistGet
  split
  · rename_i hfind
    clear hfind
    induction l with
    | nil => simp
    | cons a t ih =>
      by_cases ha : a.1 = k
      · simp only [List.map_cons, if_pos ha]
        rw [List.find?_cons_of_neg _ (by simpa using Ne.symm hne),
            List.find?_cons_of_neg _ (by simp [ha]; exact Ne.symm hne)]
        exact ih
      · simp only [List.map_cons, if_neg ha]
        by_cases ha' : a.1 = k'
        · simp [List.find?_cons, ha']
        · rw [List.find?_cons_of_neg _ (by simpa using ha'),
              List.find?_cons_of_neg _ (by simpa using ha')]
          exact ih
  · rw [List.find?_append]
    have : List.find? (fun p => p.1 = k') [(k, v)] = none := by
      simp [List.find?, Ne.symm hne]
    simp [this]

theorem sortStrings_mem {v : String} {l : List String} :
    v ∈ sortStrings l ↔ v ∈ l := by
  unfold sortStrings
  exact List.mem_mergeSort

theorem sortStrings_sorted (l : List String) :
    (sortStrings l).Pairwise (fun a b => a ≤ b) := by
  have h := List.sorted_mergeSort
    (fun a b c (hab : decide (a ≤ b) = true) (hbc : decide (b ≤ c) = true) => by
      simp only [decide_eq_true_eq] at *
      exact le_trans hab hbc)
    (fun a b => by
      simp only [Bool.or_eq_true, decide_eq_true_eq]
      exact le_total a b)
    l
  exact h.imp (fun hab => by simpa using hab)

theorem filterMap_if_eq_filter_map {α β : Type} (p : α → Bool) (g : α → β)
    (f : α → Option β) (hf : ∀ a, f a = if p a then some (g a) else none) :
    ∀ l : List α, l.filterMap f = (l.filter p).map g := by
  intro l
  induction l with
  | nil => rfl
  | cons a t ih =>
    rw [List.filterMap_cons, List.filter_cons, hf a]
    by_cases h : p a <;> simp [h, ih]

/-! ## Feature-matrix lemmas -/

theorem buildStep_foldl_none (memberIds unitIds : List String) :
    ∀ rows : List Row, rows.foldl (buildStep memberIds unitIds) none = none := by
  intro rows
  induction rows with
  | nil => rfl
  | cons r t ih => simpa [buildStep] using ih

/-- `edgeValue` on a numeric weight: fails exactly at `-1`, and otherwise is
`1/(1+w)` with the falsy value `0` replaced by `1`. -/
theorem edgeValue_num (q : ℚ) :
    edgeValue (Cell.num q) =
      if q = -1 then none
      else some (1 / (1 + (if q = 0 then 1 else q))) := by
  unfold edgeValue weightEff
  by_cases h0 : q = 0
  · subst h0; norm_num
  · by_cases hm : q = -1
    · subst hm; norm_num
    · have h1 : 1 + q ≠ 0 := fun h => hm (by linarith)
      simp [h0, hm, h1]

theorem edgeValue_num_eq_none_iff (q : ℚ) :
    edgeValue (Cell.num q) = none ↔ q = -1 := by
  rw [edgeValue_num]
  by_cases hm : q = -1 <;> simp [hm]

theorem buildStep_foldl_none_iff (memberIds unitIds : List String) :
    ∀ (rows : List Row) (m : List (List ℚ)),
      rows.foldl (buildStep memberIds unitIds) (some m) = none ↔
        ∃ r ∈ rows, edgeValue (umWeightCell r) = none := by
  intro rows
  induction rows with
  | nil => intro m; simp
  | cons r t ih =>
    intro m
    rw [List.foldl_cons]
    by_cases he : edgeValue (umWeightCell r) = none
    · rw [show buildStep memberIds unitIds (some m) r = none by
        simp [buildStep, he]]
      rw [buildStep_foldl_none]
      exact iff_of_true rfl ⟨r, List.mem_cons_self r t, he⟩
    · obtain ⟨v, hv⟩ := Option.ne_none_iff_exists.mp he
      rw [show buildStep memberIds unitIds (some m) r =
          some (matSet m (memberIds.indexOf (umMemberId r))
            (unitIds.indexOf (umUnitId r)) v) by simp [buildStep, ← hv]]
      rw [ih]
      constructor
      · rintro ⟨r', hr', he'⟩
        exact ⟨r', List.mem_cons_of_mem _ hr', he'⟩
      · rintro ⟨r', hr', he'⟩
        rcases List.mem_cons.mp hr' with rfl | hr'
        · exact absurd he' he
        · exact ⟨r', hr', he'⟩

/-- All entries of a matrix are non-negative. -/
def EntriesNonneg (m : List (List ℚ)) : Prop := ∀ row ∈ m, ∀ v ∈ row, 0 ≤ v

theorem entriesNonneg_replicate (n k : ℕ) :
    EntriesNonneg (List.replicate n (List.replicate k (0 : ℚ))) := by
  intro row hrow v hv
  rw [List.eq_of_mem_replicate hrow] at hv
  rw [List.eq_of_mem_replicate hv]

theorem entriesNonneg_matSet {m : List (List ℚ)} {v : ℚ}
    (hm : EntriesNonneg m) (hv : 0 ≤ v) (i j : ℕ) :
    EntriesNonneg (matSet m i j v) := by
  intro row hrow w hw
  rcases List.mem_or_eq_of_mem_set hrow with h | rfl
  · exact hm row h w hw
  · rcases List.mem_or_eq_of_mem_set hw with h | rfl
    · by_cases hi : i < m.length
      · have hmem : m.getD i [] ∈ m := by
          rw [List.getD_eq_getElem m [] hi]
          exact List.getElem_mem hi
        exact hm _ hmem w h
      · rw [List.getD_eq_default m [] (Nat.le_of_not_lt hi)] at h
        simp at h
    · exact hv

theorem buildStep_foldl_nonneg (memberIds unitIds : List String) :
    ∀ (rows : List Row) (m m' : List (List ℚ)),
      (∀ r ∈ rows, ∃ q, umWeightCell r = Cell.num q ∧ 0 ≤ q) →
      EntriesNonneg m →
      rows.foldl (buildStep memberIds unitIds) (some m) = some m' →
      EntriesNonneg m' := by
  intro rows
  induction rows with
  | nil =>
    intro m m' _ hm h
    rw [List.foldl_nil] at h
    exact (Option.some.inj h) ▸ hm
  | cons r t ih =>
    intro m m' hw hm h
    obtain ⟨q, hq, hq0⟩ := hw r (List.mem_cons_self r t)
    have hq1 : q ≠ -1 := by intro hc; rw [hc] at hq0; norm_num at hq0
    have hval : edgeValue (umWeightCell r) =
        some (1 / (1 + (if q = 0 then 1 else q))) := by
      rw [hq, edgeValue_num, if_neg hq1]
    have hvpos : (0 : ℚ) ≤ 1 / (1 + (if q = 0 then 1 else q)) := by
      by_cases h0 : q = 0
      · norm_num [h0]
      · have hlt : (0 : ℚ) < 1 + q := by
          rcases lt_or_eq_of_le hq0 with h | h
          · linarith
          · exact absurd h.symm h0
        simp only [if_neg h0]
        positivity
    rw [List.foldl_cons,
        show buildStep memberIds unitIds (some m) r =
          some (matSet m (memberIds.indexOf (umMemberId r))
            (unitIds.indexOf (umUnitId r))
            (1 / (1 + (if q = 0 then 1 else q)))) by simp [buildStep, hval]] at h
    exact ih _ _ (fun r' hr' => hw r' (List.mem_cons_of_mem _ hr'))
      (entriesNonneg_matSet hm hvpos _ _) h

theorem nsqL_nonneg (a : List ℚ) : 0 ≤ nsqL a := by
  induction a with
  | nil => simp [nsqL]
  | cons x t ih =>
    simp only [nsqL, List.map_cons, List.sum_cons] at *
    nlinarith [mul_self_nonneg x]

theorem sq_le_nsqL {v : ℚ} {row : List ℚ} (h : v ∈ row) : v * v ≤ nsqL row := by
  induction row with
  | nil => simp at h
  | cons a t ih =>
    simp only [nsqL, List.map_cons, List.sum_cons]
    rcases List.mem_cons.mp h with rfl | h
    · have ht := nsqL_nonneg t
      simp only [nsqL] at ht
      linarith
    · have := ih h
      simp only [nsqL] at this
      nlinarith [mul_self_nonneg a]

theorem dotL_nonneg : ∀ {a b : List ℚ},
    (∀ v ∈ a, 0 ≤ v) → (∀ v ∈ b, 0 ≤ v) → 0 ≤ dotL a b := by
  intro a
  induction a with
  | nil => intro b _ _; simp [dotL]
  | cons x t ih =>
    intro b ha hb
    cases b with
    | nil => simp [dotL]
    | cons y u =>
      simp only [dotL, List.zipWith_cons_cons, List.sum_cons]
      have h1 : 0 ≤ x * y :=
        mul_nonneg (ha x (List.mem_cons_self x t)) (hb y (List.mem_cons_self y u))
      have h2 : 0 ≤ dotL t u :=
        ih (fun v hv => ha v (List.mem_cons_of_mem _ hv))
           (fun v hv => hb v (List.mem_cons_of_mem _ hv))
      simp only [dotL] at h2
      linarith

/-- The two-variable step of Cauchy–Schwarz. -/
theorem cauchy_step (x y d A B : ℚ) (hd : d * d ≤ A * B) (hA : 0 ≤ A)
    (hB : 0 ≤ B) : (x * y + d) * (x * y + d) ≤ (x * x + A) * (y * y + B) := by
  rcases eq_or_lt_of_le hB with hB0 | hBpos
  · have hd2 : d * d ≤ 0 := by nlinarith
    have hd0 : d = 0 := by nlinarith [mul_self_nonneg d]
    subst hd0
    rw [← hB0]
    nlinarith [mul_nonneg hA (mul_self_nonneg y)]
  · nlinarith [sq_nonneg (x * B - y * d),
      mul_nonneg (add_nonneg (mul_self_nonneg y) hB) (sub_nonneg.mpr hd)]

/-- Cauchy–Schwarz for list dot products: `(a · b)² ≤ ‖a‖² ‖b‖²`. -/
theorem dotL_sq_le : ∀ (a b : List ℚ),
    dotL a b * dotL a b ≤ nsqL a * nsqL b := by
  intro a
  induction a with
  | nil => intro b; simp [dotL, nsqL]
  | cons x t ih =>
    intro b
    cases b with
    | nil =>
      simp only [dotL, nsqL, List.zipWith_nil_right, List.sum_nil,
        List.map_nil, mul_zero]
      simp
    | cons y u =>
      have hIH := ih u
      have hA := nsqL_nonneg t
      have hB := nsqL_nonneg u
      simp only [dotL, nsqL, List.zipWith_cons_cons, List.sum_cons,
        List.map_cons] at *
      exact cauchy_step x y _ _ _ hIH hA hB

/-! ## Claim C10 -/

/-- C10: for every unit_members table in which every weight value is a
non-negative number, `build_member_unit_matrix` returns normally and every
entry of the matrix is in [0, 1] — stated as `0 ≤ v ∧ v·v ≤ nsqL row`, which
pins the normalized entry `v / √(nsqL row)` into [0, 1] (also under the
source's zero-norm-replaced-by-1 convention, where `v = 0`); and, for numeric
weights, the build fails (raises) exactly when some weight equals `-1`. -/
theorem c10_matrix_totality_and_range (t : Table) :
    ((∀ r ∈ t.rows, ∃ q, umWeightCell r = Cell.num q ∧ 0 ≤ q) →
      ∃ mids uids mat, build_member_unit_matrix t = some (mids, uids, mat) ∧
        ∀ row ∈ mat, ∀ v ∈ row, 0 ≤ v ∧ v * v ≤ nsqL row) ∧
    ((∀ r ∈ t.rows, ∃ q, umWeightCell r = Cell.num q) →
      ((build_member_unit_matrix t).isNone ↔
        ∃ r ∈ t.rows, umWeightCell r = Cell.num (-1))) := by
  constructor
  · intro hw
    by_cases hemp : t.rows.isEmpty = true
    · refine ⟨[], [], [], ?_, ?_⟩
      · unfold build_member_unit_matrix
        rw [if_pos hemp]
      · intro row hrow
        exact absurd hrow (List.not_mem_nil row)
    · have hnn : t.rows.foldl (buildStep (buildMemberIds t) (buildUnitIds t))
          (some (buildMat0 t)) ≠ none := by
        rw [Ne, buildStep_foldl_none_iff]
        rintro ⟨r, hr, he⟩
        obtain ⟨q, hq, hq0⟩ := hw r hr
        rw [hq, edgeValue_num_eq_none_iff] at he
        rw [he] at hq0
        norm_num at hq0
      cases hfold : t.rows.foldl (buildStep (buildMemberIds t) (buildUnitIds t))
          (some (buildMat0 t)) with
      | none => exact absurd hfold hnn
      | some m =>
        refine ⟨buildMemberIds t, buildUnitIds t, m, ?_, ?_⟩
        · unfold build_member_unit_matrix
          rw [if_neg hemp, hfold]
        · have hm : EntriesNonneg m :=
            buildStep_foldl_nonneg _ _ t.rows (buildMat0 t) m hw
              (entriesNonneg_replicate _ _) hfold
          intro row hrow v hv
          exact ⟨hm row hrow v hv, sq_le_nsqL hv⟩
  · intro hw
    by_cases hemp : t.rows.isEmpty = true
    · unfold build_member_unit_matrix
      rw [if_pos hemp]
      refine iff_of_false (by simp) ?_
      rintro ⟨r, hr, _⟩
      rw [List.isEmpty_iff.mp hemp] at hr
      exact absurd hr (List.not_mem_nil r)
    · unfold build_member_unit_matrix
      rw [if_neg hemp]
      cases hfold : t.rows.foldl (buildStep (buildMemberIds t) (buildUnitIds t))
          (some (buildMat0 t)) with
      | none =>
        refine iff_of_true rfl ?_
        obtain ⟨r, hr, he⟩ := (buildStep_foldl_none_iff _ _ t.rows _).mp hfold
        obtain ⟨q, hq⟩ := hw r hr
        rw [hq, edgeValue_num_eq_none_iff] at he
        exact ⟨r, hr, by rw [hq, he]⟩
      | some m =>
        refine iff_of_false (by simp) ?_
        rintro ⟨r, hr, he⟩
        have : t.rows.foldl (buildStep (buildMemberIds t) (buildUnitIds t))
            (some (buildMat0 t)) = none := by
          rw [buildStep_foldl_none_iff]
          exact ⟨r, hr, by rw [he, edgeValue_num_eq_none_iff]⟩
        rw [hfold] at this
        cases this

/-- A small unit_members fixture with non-negative numeric weights. -/
def fxUMRow (u m : String) (w : Cell) : Row :=
  [("unit_id", .txt u), ("member_id", .txt m), ("weight", w)]

def fxUMGood : Table :=
  ⟨["unit_id", "member_id", "weight"],
   [fxUMRow "u1" "m1" (.num 1), fxUMRow "u1" "m2" (.num 2),
    fxUMRow "u2" "m1" (.num 3), fxUMRow "u2" "m3" (.num 1)]⟩

theorem c10_matrix_totality_and_range_witness :
    ∃ mids uids mat, build_member_unit_matrix fxUMGood = some (mids, uids, mat) ∧
      ∀ row ∈ mat, ∀ v ∈ row, 0 ≤ v ∧ v * v ≤ nsqL row :=
  (c10_matrix_totality_and_range fxUMGood).1 (by
    intro r hr
    simp only [fxUMGood, fxUMRow, List.mem_cons, List.not_mem_nil, or_false] at hr
    rcases hr with rfl | rfl | rfl | rfl <;> exact ⟨_, rfl, by norm_num⟩)

/-! ## Claim C6 -/

theorem build_entriesNonneg {t : Table} {mids uids : List String}
    {mat : List (List ℚ)}
    (hw : ∀ r ∈ t.rows, ∃ q, umWeightCell r = Cell.num q ∧ 0 ≤ q)
    (hb : build_member_unit_matrix t = some (mids, uids, mat)) :
    EntriesNonneg mat := by
  unfold build_member_unit_matrix at hb
  by_cases hemp : t.rows.isEmpty = true
  · rw [if_pos hemp] at hb
    simp only [Option.some.injEq, Prod.mk.injEq] at hb
    obtain ⟨h1, h2, h3⟩ := hb
    subst h3
    intro row hrow
    exact absurd hrow (List.not_mem_nil row)
  · rw [if_neg hemp] at hb
    cases hfold : t.rows.foldl (buildStep (buildMemberIds t) (buildUnitIds t))
        (some (buildMat0 t)) with
    | none => rw [hfold] at hb; cases hb
    | some m =>
      rw [hfold] at hb
      simp only [Option.some.injEq, Prod.mk.injEq] at hb
      obtain ⟨h1, h2, h3⟩ := hb
      subst h3
      exact buildStep_foldl_nonneg _ _ t.rows (buildMat0 t) m hw
        (entriesNonneg_replicate _ _) hfold

theorem getD_row_nonneg {mat : List (List ℚ)} (hm : EntriesNonneg mat)
    (i : ℕ) : ∀ v ∈ mat.getD i [], 0 ≤ v := by
  by_cases hi : i < mat.length
  · intro v hv
    have hmem : mat.getD i [] ∈ mat := by
      rw [List.getD_eq_getElem mat [] hi]
      exact List.getElem_mem hi
    exact hm _ hmem v hv
  · rw [List.getD_eq_default mat [] (Nat.le_of_not_lt hi)]
    intro v hv
    exact absurd hv (List.not_mem_nil v)

/-- C6: for every feature matrix built from a table with non-negative numeric
weights, a member id `m` in the row index and `1 ≤ k ≤ 50`, `top_similar`
never returns `m` itself, returns at most `k` entries, and each score lies in
[0, 1] — a score is represented by the pair `(dot, nsq)` (see
`cosine_similarity`); `0 ≤ dot` and `dot² ≤ nsq · nsq_target` pin the real
cosine value `dot/(√nsq·√nsq_target)` into [0, 1]. -/
theorem c6_top_similar_properties (t : Table)
    (hw : ∀ r ∈ t.rows, ∃ q, umWeightCell r = Cell.num q ∧ 0 ≤ q)
    (mids uids : List String) (mat : List (List ℚ))
    (hb : build_member_unit_matrix t = some (mids, uids, mat))
    (m : String) (hm : m ∈ mids) (k : ℕ) (hk1 : 1 ≤ k) (hk50 : k ≤ 50) :
    (∀ x ∈ top_similar m mids mat k, x.1 ≠ m) ∧
    (top_similar m mids mat k).length ≤ k ∧
    (∀ x ∈ top_similar m mids mat k, 0 ≤ x.2.1 ∧
      x.2.1 * x.2.1 ≤ x.2.2 * nsqL (mat.getD (mids.indexOf m) [])) := by
  have hnn : EntriesNonneg mat := build_entriesNonneg hw hb
  unfold top_similar
  by_cases hguard : ¬ mids.contains m ∨ matSize mat = 0
  · rw [if_pos hguard]
    refine ⟨?_, ?_, ?_⟩
    · intro x hx; exact absurd hx (List.not_mem_nil x)
    · simp
    · intro x hx; exact absurd hx (List.not_mem_nil x)
  · rw [if_neg hguard]
    push_neg at hguard
    obtain ⟨hcont, hsz⟩ := hguard
    have hmemx : ∀ x : String × (ℚ × ℚ),
        x ∈ (((mids.zip (cosine_similarity mat (mids.indexOf m))).filterMap
          (fun p : String × (ℚ × ℚ) =>
            if p.1 = m then none else some p)).mergeSort
          (fun a b => scoreLeB b.2 a.2)).take k →
        x.1 ≠ m ∧ ∃ row ∈ mat,
          x.2 = (dotL row (mat.getD (mids.indexOf m) []), nsqL row) := by
      intro x hx
      have hx1 := List.mem_mergeSort.mp (List.mem_of_mem_take hx)
      obtain ⟨p, hp, hpx⟩ := List.mem_filterMap.mp hx1
      by_cases hpm : p.1 = m
      · rw [if_pos hpm] at hpx; cases hpx
      · rw [if_neg hpm] at hpx
        obtain rfl := Option.some.inj hpx
        refine ⟨hpm, ?_⟩
        have hscore := (List.of_mem_zip hp).2
        unfold cosine_similarity at hscore
        rw [if_neg hsz] at hscore
        obtain ⟨row, hrow, hrow2⟩ := List.mem_map.mp hscore
        exact ⟨row, hrow, hrow2.symm⟩
    refine ⟨fun x hx => (hmemx x hx).1, ?_, ?_⟩
    · exact le_trans (List.length_take_le k _) le_rfl
    · intro x hx
      obtain ⟨-, row, hrow, hx2⟩ := hmemx x hx
      rw [hx2]
      refine ⟨?_, ?_⟩
      · exact dotL_nonneg (fun v hv => hnn row hrow v hv)
          (getD_row_nonneg hnn (mids.indexOf m))
      · exact dotL_sq_le row (mat.getD (mids.indexOf m) [])

unseal String.ltb List.merge List.mergeSort Rat.add Rat.mul Rat.inv Rat.sub Substring.takeWhileAux Substring.takeRightWhileAux String.mapAux in
theorem c6_top_similar_properties_witness :
    (∀ x ∈ top_similar "m1" ["m1", "m2", "m3"]
        [[1/2, 1/4], [1/3, 0], [0, 1/2]] 2, x.1 ≠ "m1") ∧
    (top_similar "m1" ["m1", "m2", "m3"]
        [[1/2, 1/4], [1/3, 0], [0, 1/2]] 2).length ≤ 2 ∧
    (∀ x ∈ top_similar "m1" ["m1", "m2", "m3"]
        [[1/2, 1/4], [1/3, 0], [0, 1/2]] 2, 0 ≤ x.2.1 ∧
      x.2.1 * x.2.1 ≤ x.2.2 *
        nsqL ([[(1:ℚ)/2, 1/4], [1/3, 0], [0, 1/2]].getD
          (["m1", "m2", "m3"].indexOf "m1") [])) :=
  c6_top_similar_properties fxUMGood
    (by
      intro r hr
      simp only [fxUMGood, fxUMRow, List.mem_cons, List.not_mem_nil,
        or_false] at hr
      rcases hr with rfl | rfl | rfl | rfl <;> exact ⟨_, rfl, by norm_num⟩)
    ["m1", "m2", "m3"] ["u1", "u2"] [[1/2, 1/4], [1/3, 0], [0, 1/2]]
    (by decide) "m1" (by decide) 2 (by decide) (by decide)

/-! ## Claim C5 -/

/-- A unit_members table with a single edge of weight 0. -/
def fxUMZero : Table :=
  ⟨["unit_id", "member_id", "weight"], [fxUMRow "u1" "m1" (.num 0)]⟩

unseal String.ltb List.merge List.mergeSort Rat.add Rat.mul Rat.inv Rat.sub Substring.takeWhileAux Substring.takeRightWhileAux String.mapAux in
/-- C5: evaluation of the matrix builder at weight 0.  The claim says every
edge with numeric weight `w` contributes `1/(1+w)` (strictly antitone in `w`)
before row normalization; but `float(row.get("weight", 1) or 1)` treats the
falsy value `0` as missing, so a weight-0 edge contributes
`1/(1+1) = 1/2` instead of `1`, and the larger weight `1/2` contributes the
*larger* value `2/3` — contradicting the source's own comment
"smaller weight -> bigger contribution".  The `9999 ↦ 1/10000` part of the
claim does hold. -/
theorem c5_weight_zero_contribution :
    edgeValue (Cell.num 0) = some (1/2) ∧
    edgeValue (Cell.num (1/2)) = some (2/3) ∧
    ((1 : ℚ)/2 < 2/3) ∧
    edgeValue (Cell.num 9999) = some (1/10000) ∧
    build_member_unit_matrix fxUMZero = some (["m1"], ["u1"], [[1/2]]) := by
  decide

/-! ## Claim C2 -/

/-- The "(score, intersection) non-increasing" order of `find_matches`. -/
def matchGe (a b : MatchRow) : Prop :=
  b.matchScore < a.matchScore ∨
    (a.matchScore = b.matchScore ∧ b.intersection ≤ a.intersection)

theorem matchLeB_iff {a b : MatchRow} : matchLeB a b = true ↔ matchGe a b := by
  unfold matchLeB matchGe
  exact decide_eq_true_iff

theorem matchLeB_trans : ∀ (a b c : MatchRow),
    matchLeB a b → matchLeB b c → matchLeB a c := by
  intro a b c hab hbc
  rw [matchLeB_iff] at *
  rcases hab with h | ⟨h1, h2⟩ <;> rcases hbc with h' | ⟨h1', h2'⟩
  · exact Or.inl (lt_trans h' h)
  · exact Or.inl (by rw [← h1']; exact h)
  · exact Or.inl (by rw [h1]; exact h')
  · exact Or.inr ⟨h1.trans h1', le_trans h2' h2⟩

theorem matchLeB_total : ∀ (a b : MatchRow),
    matchLeB a b || matchLeB b a := by
  intro a b
  rw [Bool.or_eq_true, matchLeB_iff, matchLeB_iff]
  rcases lt_trichotomy a.matchScore b.matchScore with h | h | h
  · exact Or.inr (Or.inl h)
  · rcases Nat.le_total b.intersection a.intersection with h2 | h2
    · exact Or.inl (Or.inr ⟨h, h2⟩)
    · exact Or.inr (Or.inr ⟨h.symm, h2⟩)
  · exact Or.inl (Or.inl h)

/-- The match row built for a surviving unit. -/
def matchRowOf (search_set : Finset String) (u : UnitRec) : MatchRow :=
  { unitName := u.unitName,
    unitId := u.unitId,
    members := u.memberDisplay,
    note := u.note,
    aliases := u.aliases,
    aliasNotes := u.aliasNotes,
    branches := u.branches,
    generations := u.generations,
    statuses := u.statuses,
    matchScore := jaccard search_set u.memberSet,
    intersection := (search_set ∩ u.memberSet).card }

theorem find_matches_eq (units : List UnitRec) (q : Finset String) :
    find_matches units q =
      ((units.filter (fun u => decide ((q ∩ u.memberSet).Nonempty))).map
        (matchRowOf q)).mergeSort matchLeB := by
  show (units.filterMap (fun u =>
      if (q ∩ u.memberSet).card = 0 then none
      else some { unitName := u.unitName, unitId := u.unitId,
                  members := u.memberDisplay, note := u.note,
                  aliases := u.aliases, aliasNotes := u.aliasNotes,
                  branches := u.branches, generations := u.generations,
                  statuses := u.statuses,
                  matchScore := jaccard q u.memberSet,
                  intersection := (q ∩ u.memberSet).card })).mergeSort
      matchLeB = _
  congr 1
  refine filterMap_if_eq_filter_map
    (fun u => decide ((q ∩ u.memberSet).Nonempty)) (matchRowOf q) _ ?_ units
  intro u
  by_cases hc : (q ∩ u.memberSet).card = 0
  · have : ¬ (q ∩ u.memberSet).Nonempty := by
      rw [Finset.card_eq_zero] at hc
      rw [hc]
      exact Finset.not_nonempty_empty
    simp [hc, this, matchRowOf]
  · have : (q ∩ u.memberSet).Nonempty := by
      rw [← Finset.card_pos]
      exact Nat.pos_of_ne_zero hc
    simp [hc, this, matchRowOf]

/-- C2: `find_matches` returns exactly the units whose member set meets the
query (as a permutation of unit ids), every returned row has intersection at
least 1 and carries the Jaccard score and intersection of its unit, and the
rows are pairwise ordered non-increasingly by (score, intersection)
lexicographically. -/
theorem c2_find_matches_exact_and_sorted (units : List UnitRec)
    (q : Finset String) :
    (((find_matches units q).map (fun r => r.unitId)).Perm
      ((units.filter (fun u => decide ((q ∩ u.memberSet).Nonempty))).map
        (fun u => u.unitId))) ∧
    (∀ r ∈ find_matches units q, 1 ≤ r.intersection ∧
      ∃ u ∈ units, r.unitId = u.unitId ∧
        r.intersection = (q ∩ u.memberSet).card ∧
        r.matchScore = jaccard q u.memberSet) ∧
    (find_matches units q).Pairwise matchGe := by
  have heq := find_matches_eq units q
  refine ⟨?_, ?_, ?_⟩
  · rw [heq]
    have hperm := (List.mergeSort_perm
      ((units.filter (fun u => decide ((q ∩ u.memberSet).Nonempty))).map
        (matchRowOf q)) matchLeB).map (fun r => r.unitId)
    refine hperm.trans ?_
    rw [List.map_map]
    exact List.Perm.of_eq rfl
  · intro r hr
    rw [heq, List.mem_mergeSort] at hr
    obtain ⟨u, hu, hru⟩ := List.mem_map.mp hr
    have humem := List.mem_of_mem_filter hu
    have hne : (q ∩ u.memberSet).Nonempty := by
      have := List.of_mem_filter hu
      simpa using this
    refine ⟨?_, u, humem, ?_, ?_, ?_⟩
    · rw [← hru]
      exact Finset.card_pos.mpr hne
    · rw [← hru]
      rfl
    · rw [← hru]
      rfl
    · rw [← hru]
      rfl
  · rw [heq]
    exact (List.sorted_mergeSort matchLeB_trans matchLeB_total _).imp
      (fun h => matchLeB_iff.mp h)

/-- A one-unit fixture for the C2 witness. -/
def fxUnitsC2 : List UnitRec :=
  [⟨"u1", "U", [], [], "", {"m1"}, "A", ∅, ∅, ∅⟩]

/-- The row `find_matches` produces for that unit and the query {"m1"}. -/
def fxRowC2 : MatchRow := ⟨"U", "u1", "A", "", [], [], ∅, ∅, ∅, 1, 1⟩

unseal String.ltb List.merge List.mergeSort Rat.add Rat.mul Rat.inv Rat.sub Substring.takeWhileAux Substring.takeRightWhileAux String.mapAux in
theorem c2_find_matches_exact_and_sorted_witness :
    (((find_matches fxUnitsC2 {"m1"}).map (fun r => r.unitId)).Perm
      ((fxUnitsC2.filter
        (fun u => decide (({"m1"} ∩ u.memberSet : Finset String).Nonempty))).map
        (fun u => u.unitId))) ∧
    1 ≤ fxRowC2.intersection :=
  ⟨(c2_find_matches_exact_and_sorted fxUnitsC2 {"m1"}).1,
   ((c2_find_matches_exact_and_sorted fxUnitsC2 {"m1"}).2.1 fxRowC2
     (by decide)).1⟩

/-! ## Claim C3 -/

theorem erc_ok_iff (t : Table) (req : List String) (l : String) :
    ensure_required_columns t req l = .ok () ↔ missingCols t req = [] := by
  unfold ensure_required_columns
  by_cases h : (missingCols t req).isEmpty
  · rw [if_pos h]
    exact iff_of_true rfl (List.isEmpty_iff.mp h)
  · rw [if_neg h]
    refine iff_of_false (fun hc => by cases hc) ?_
    intro hc
    exact h (List.isEmpty_iff.mpr hc)

theorem erc_error (t : Table) (req : List String) (l : String)
    (h : missingCols t req ≠ []) :
    ensure_required_columns t req l =
      .error (.schema l (sortStrings (missingCols t req))) := by
  unfold ensure_required_columns
  rw [if_neg (fun hc => h (List.isEmpty_iff.mp hc))]

/-- The validated bundle built when every check passes. -/
def validatedBundle (tables : List (String × Table)) : DataBundle :=
  { members := mTable tables,
    member_generations := gTable tables,
    units := uTable tables,
    unit_members := normalizeWeights (umTable tables),
    member_aliases := maTable tables,
    units_aliases := uaTable tables }

theorem validate_eq_missing {tables : List (String × Table)} {k : String}
    (h : REQUIRED_SHEETS.find? (fun k => (lookupTable tables k).isNone) = some k) :
    validate tables = .error (.missingSheet k) := by
  unfold validate
  rw [h]

theorem validate_eq_checks {tables : List (String × Table)}
    (hp : REQUIRED_SHEETS.find? (fun k => (lookupTable tables k).isNone) = none) :
    validate tables =
      andThen (ensure_required_columns (mTable tables) membersRequiredCols
        "members")
      (andThen (ensure_required_columns (gTable tables)
        memberGenerationsRequiredCols "member_generations")
      (andThen (ensure_required_columns (uTable tables) unitsRequiredCols
        "units")
      (andThen (ensure_required_columns (umTable tables)
        unitMembersRequiredCols "unit_members")
      (andThen (ensure_references (gTable tables) "member_id"
        (memberIdsOf tables) "member_generations" "members")
      (andThen (ensure_references (umTable tables) "member_id"
        (memberIdsOf tables) "unit_members" "members")
      (andThen (ensure_references (umTable tables) "unit_id"
        (unitIdsOf tables) "unit_members" "units")
      (andThen (ensure_references (maTable tables) "member_id"
        (memberIdsOf tables) "member_aliases" "members")
      (andThen (ensure_references (uaTable tables) "unit_id"
        (unitIdsOf tables) "units_aliases" "units")
      (.ok (validatedBundle tables)))))))))) := by
  unfold validate validatedBundle
  rw [hp]

theorem sortStrings_missing_spec (t : Table) (req : List String) :
    (∀ c, c ∈ sortStrings (missingCols t req) ↔
      c ∈ req ∧ ¬ t.cols.contains c) ∧
    (sortStrings (missingCols t req)).Pairwise (fun a b => a ≤ b) := by
  constructor
  · intro c
    rw [sortStrings_mem]
    unfold missingCols
    rw [List.mem_filter]
    simp
  · exact sortStrings_sorted _

/-- C3 (amended): a missing required table makes validation fail with a
`MissingSheetError` naming the (first) missing table — not a SchemaError as
the claim states; and, with all required tables present, a required table
whose required columns are incomplete (the first such, in check order) makes
validation fail with a `SchemaError` naming the table and the full sorted
collected list of its missing required column names. -/
theorem c3_missing_table_and_columns (tables : List (String × Table)) :
    (∀ k, REQUIRED_SHEETS.find? (fun k => (lookupTable tables k).isNone) =
        some k → validate tables = .error (.missingSheet k)) ∧
    (REQUIRED_SHEETS.find? (fun k => (lookupTable tables k).isNone) = none →
      (missingCols (mTable tables) membersRequiredCols ≠ [] →
        validate tables = .error (.schema "members"
          (sortStrings (missingCols (mTable tables) membersRequiredCols)))) ∧
      (missingCols (mTable tables) membersRequiredCols = [] →
        missingCols (gTable tables) memberGenerationsRequiredCols ≠ [] →
        validate tables = .error (.schema "member_generations"
          (sortStrings (missingCols (gTable tables)
            memberGenerationsRequiredCols)))) ∧
      (missingCols (mTable tables) membersRequiredCols = [] →
        missingCols (gTable tables) memberGenerationsRequiredCols = [] →
        missingCols (uTable tables) unitsRequiredCols ≠ [] →
        validate tables = .error (.schema "units"
          (sortStrings (missingCols (uTable tables) unitsRequiredCols)))) ∧
      (missingCols (mTable tables) membersRequiredCols = [] →
        missingCols (gTable tables) memberGenerationsRequiredCols = [] →
        missingCols (uTable tables) unitsRequiredCols = [] →
        missingCols (umTable tables) unitMembersRequiredCols ≠ [] →
        validate tables = .error (.schema "unit_members"
          (sortStrings (missingCols (umTable tables)
            unitMembersRequiredCols))))) ∧
    (∀ t req, (∀ c, c ∈ sortStrings (missingCols t req) ↔
        c ∈ req ∧ ¬ t.cols.contains c) ∧
      (sortStrings (missingCols t req)).Pairwise (fun a b => a ≤ b)) := by
  refine ⟨fun k h => validate_eq_missing h, fun hp => ?_, sortStrings_missing_spec⟩
  have heq := validate_eq_checks hp
  refine ⟨?_, ?_, ?_, ?_⟩
  · intro h1
    rw [heq, erc_error _ _ _ h1, andThen_error]
  · intro h1 h2
    rw [heq, (erc_ok_iff _ _ _).mpr h1, andThen_ok, erc_error _ _ _ h2,
      andThen_error]
  · intro h1 h2 h3
    rw [heq, (erc_ok_iff _ _ _).mpr h1, andThen_ok,
      (erc_ok_iff _ _ _).mpr h2, andThen_ok, erc_error _ _ _ h3, andThen_error]
  · intro h1 h2 h3 h4
    rw [heq, (erc_ok_iff _ _ _).mpr h1, andThen_ok,
      (erc_ok_iff _ _ _).mpr h2, andThen_ok,
      (erc_ok_iff _ _ _).mpr h3, andThen_ok, erc_error _ _ _ h4, andThen_error]

/-! Fixtures: a complete, internally consistent table set. -/

def fxMemberRow (mid dn al br st : String) : Row :=
  [("member_id", .txt mid), ("display_name", .txt dn), ("alias", .txt al),
   ("branch", .txt br), ("status", .txt st)]

def fxMembers : Table :=
  ⟨["member_id", "display_name", "alias", "branch", "status"],
   [fxMemberRow "m1" "Alice" "Al" "A" "active",
    fxMemberRow "m2" "Bob" "Bobby" "B" "retired",
    fxMemberRow "m3" "Carol" "" "A" "active"]⟩

def fxGens : Table :=
  ⟨["member_id", "generation", "is_primary"],
   [[("member_id", .txt "m1"), ("generation", .txt "1"),
     ("is_primary", .txt "TRUE")],
    [("member_id", .txt "m3"), ("generation", .txt "2"),
     ("is_primary", .txt "TRUE")]]⟩

def fxUnitsT : Table :=
  ⟨["unit_id", "canonical_name", "note"],
   [[("unit_id", .txt "u1"), ("canonical_name", .txt "Unit One"),
     ("note", .txt "")],
    [("unit_id", .txt "u2"), ("canonical_name", .txt "Unit Two"),
     ("note", .txt "")]]⟩

def fxTables : List (String × Table) :=
  [("members", fxMembers), ("member_generations", fxGens),
   ("units", fxUnitsT), ("unit_members", fxUMGood)]

/-- The table set with the `members` sheet absent (everything else good). -/
def fxTablesNoMembers : List (String × Table) :=
  [("member_generations", fxGens), ("units", fxUnitsT),
   ("unit_members", fxUMGood)]

/-- The table set with the `weight` column dropped from `unit_members`. -/
def fxUMNoWeight : Table :=
  ⟨["unit_id", "member_id"],
   [[("unit_id", .txt "u1"), ("member_id", .txt "m1")]]⟩

def fxTablesNoWeight : List (String × Table) :=
  [("members", fxMembers), ("member_generations", fxGens),
   ("units", fxUnitsT), ("unit_members", fxUMNoWeight)]

/-- Discriminator: is this result a `SchemaValidationError`? -/
def isSchemaError {β : Type} (e : Except VError β) : Bool :=
  match e with
  | .error (.schema _ _) => true
  | _ => false

/-- C3 counterexample: with the required `members` table absent (and all other
tables complete), validation fails with a `MissingSheetError`, not with a
`SchemaError` as the claim states. -/
theorem c3_missing_table_counterexample :
    validate fxTablesNoMembers = .error (.missingSheet "members") ∧
    isSchemaError (validate fxTablesNoMembers) = false := by
  decide

unseal String.ltb List.merge List.mergeSort Rat.add Rat.mul Rat.inv Rat.sub Substring.takeWhileAux Substring.takeRightWhileAux String.mapAux in
theorem c3_missing_table_and_columns_witness :
    validate fxTablesNoWeight = .error (.schema "unit_members"
      (sortStrings (missingCols fxUMNoWeight unitMembersRequiredCols))) := by
  have h := ((c3_missing_table_and_columns fxTablesNoWeight).2.1
    (by decide)).2.2.2 (by decide) (by decide) (by decide) (by decide)
  have humt : umTable fxTablesNoWeight = fxUMNoWeight := by decide
  rw [h, humt]

/-! ## Claim C4 -/

/-- Some value of the column is a dangling reference: non-empty and not among
the allowed ids. -/
def Dangling (t : Table) (c : String) (allowed : List String) : Prop :=
  ∃ v ∈ colVals t c, v ∉ allowed ∧ v ≠ ""

theorem refInvalid_mem_iff (t : Table) (c : String) (allowed : List String)
    (v : String) :
    v ∈ refInvalid t c allowed ↔ v ∈ colVals t c ∧ v ∉ allowed ∧ v ≠ "" := by
  unfold refInvalid
  rw [sortStrings_mem, List.mem_dedup, List.mem_filter]
  simp

theorem refInvalid_ne_nil_iff (t : Table) (c : String) (allowed : List String) :
    refInvalid t c allowed ≠ [] ↔ Dangling t c allowed := by
  rw [Ne, List.eq_nil_iff_forall_not_mem]
  unfold Dangling
  push_neg
  constructor
  · rintro ⟨v, hv⟩
    rw [refInvalid_mem_iff] at hv
    exact ⟨v, hv.1, hv.2⟩
  · rintro ⟨v, hv1, hv2⟩
    exact ⟨v, (refInvalid_mem_iff t c allowed v).mpr ⟨hv1, hv2⟩⟩

theorem er_ok_iff (t : Table) (c : String) (allowed : List String)
    (l tg : String) (hcol : t.cols.contains c = true) :
    ensure_references t c allowed l tg = .ok () ↔
      refInvalid t c allowed = [] := by
  have hmem : c ∈ t.cols := by simpa using hcol
  unfold ensure_references
  rw [if_neg (by simp [hmem])]
  by_cases h : (refInvalid t c allowed).isEmpty
  · rw [if_pos h]
    exact iff_of_true rfl (List.isEmpty_iff.mp h)
  · rw [if_neg h]
    refine iff_of_false (fun hc => by cases hc) ?_
    intro hc
    exact h (List.isEmpty_iff.mpr hc)

theorem andThen_er_cases {β : Type} (t : Table) (c : String)
    (allowed : List String) (l tg : String) (rest : Except VError β)
    (hcol : t.cols.contains c = true) :
    andThen (ensure_references t c allowed l tg) rest =
      if refInvalid t c allowed = [] then rest
      else .error (.idConsistency l c (refInvalid t c allowed) tg) := by
  have hmem : c ∈ t.cols := by simpa using hcol
  by_cases h : refInvalid t c allowed = []
  · rw [if_pos h, (er_ok_iff t c allowed l tg hcol).mpr h, andThen_ok]
  · rw [if_neg h]
    unfold ensure_references
    rw [if_neg (by simp [hmem]),
      if_neg (fun hc => h (List.isEmpty_iff.mp hc)), andThen_error]

theorem contains_of_missingCols_nil {t : Table} {req : List String}
    (h : missingCols t req = []) : ∀ c ∈ req, t.cols.contains c = true := by
  intro c hc
  by_contra hcon
  have hmem : c ∈ missingCols t req := by
    unfold missingCols
    rw [List.mem_filter]
    exact ⟨hc, by simpa using hcon⟩
  rw [h] at hmem
  exact absurd hmem (List.not_mem_nil c)

/-- C4: for every table set that passes the column checks (all required tables
present, their required columns complete, and the id columns of the present
optional tables in place), validation fails with an `IdConsistencyError` iff
some member_id in member_generations / unit_members / member_aliases is
missing from the members ids, or some unit_id in unit_members / units_aliases
is missing from the units ids (blank cells are skipped, not references); the
raised error names the offending table, column and referenced table and
carries exactly the full, sorted, deduplicated set of invalid ids of that
column. -/
theorem c4_id_consistency (tables : List (String × Table))
    (hp : REQUIRED_SHEETS.find? (fun k => (lookupTable tables k).isNone) = none)
    (h1 : missingCols (mTable tables) membersRequiredCols = [])
    (h2 : missingCols (gTable tables) memberGenerationsRequiredCols = [])
    (h3 : missingCols (uTable tables) unitsRequiredCols = [])
    (h4 : missingCols (umTable tables) unitMembersRequiredCols = [])
    (hma : (maTable tables).cols.contains "member_id" = true)
    (hua : (uaTable tables).cols.contains "unit_id" = true) :
    ((∃ l c inv tg, validate tables = .error (.idConsistency l c inv tg)) ↔
      (Dangling (gTable tables) "member_id" (memberIdsOf tables) ∨
       Dangling (umTable tables) "member_id" (memberIdsOf tables) ∨
       Dangling (umTable tables) "unit_id" (unitIdsOf tables) ∨
       Dangling (maTable tables) "member_id" (memberIdsOf tables) ∨
       Dangling (uaTable tables) "unit_id" (unitIdsOf tables))) ∧
    (∀ l c inv tg, validate tables = .error (.idConsistency l c inv tg) →
      ((l = "member_generations" ∧ c = "member_id" ∧ tg = "members" ∧
         inv = refInvalid (gTable tables) "member_id" (memberIdsOf tables)) ∨
       (l = "unit_members" ∧ c = "member_id" ∧ tg = "members" ∧
         inv = refInvalid (umTable tables) "member_id" (memberIdsOf tables)) ∨
       (l = "unit_members" ∧ c = "unit_id" ∧ tg = "units" ∧
         inv = refInvalid (umTable tables) "unit_id" (unitIdsOf tables)) ∨
       (l = "member_aliases" ∧ c = "member_id" ∧ tg = "members" ∧
         inv = refInvalid (maTable tables) "member_id" (memberIdsOf tables)) ∨
       (l = "units_aliases" ∧ c = "unit_id" ∧ tg = "units" ∧
         inv = refInvalid (uaTable tables) "unit_id" (unitIdsOf tables)))) ∧
    (∀ t c allowed,
      (∀ v, v ∈ refInvalid t c allowed ↔
        v ∈ colVals t c ∧ v ∉ allowed ∧ v ≠ "") ∧
      (refInvalid t c allowed).Pairwise (fun a b => a ≤ b)) := by
  have hg : (gTable tables).cols.contains "member_id" = true :=
    contains_of_missingCols_nil h2 "member_id" (by
      unfold memberGenerationsRequiredCols
      exact List.mem_cons_self _ _)
  have hum1 : (umTable tables).cols.contains "member_id" = true :=
    contains_of_missingCols_nil h4 "member_id" (by
      unfold unitMembersRequiredCols
      exact List.mem_cons_of_mem _ (List.mem_cons_self _ _))
  have hum2 : (umTable tables).cols.contains "unit_id" = true :=
    contains_of_missingCols_nil h4 "unit_id" (by
      unfold unitMembersRequiredCols
      exact List.mem_cons_self _ _)
  have hres : validate tables =
      (if refInvalid (gTable tables) "member_id" (memberIdsOf tables) = [] then
       if refInvalid (umTable tables) "member_id" (memberIdsOf tables) = [] then
       if refInvalid (umTable tables) "unit_id" (unitIdsOf tables) = [] then
       if refInvalid (maTable tables) "member_id" (memberIdsOf tables) = [] then
       if refInvalid (uaTable tables) "unit_id" (unitIdsOf tables) = [] then
         .ok (validatedBundle tables)
       else .error (.idConsistency "units_aliases" "unit_id"
         (refInvalid (uaTable tables) "unit_id" (unitIdsOf tables)) "units")
       else .error (.idConsistency "member_aliases" "member_id"
         (refInvalid (maTable tables) "member_id" (memberIdsOf tables)) "members")
       else .error (.idConsistency "unit_members" "unit_id"
         (refInvalid (umTable tables) "unit_id" (unitIdsOf tables)) "units")
       else .error (.idConsistency "unit_members" "member_id"
         (refInvalid (umTable tables) "member_id" (memberIdsOf tables)) "members")
       else .error (.idConsistency "member_generations" "member_id"
         (refInvalid (gTable tables) "member_id" (memberIdsOf tables)) "members")) := by
    rw [validate_eq_checks hp,
      (erc_ok_iff _ _ _).mpr h1, andThen_ok,
      (erc_ok_iff _ _ _).mpr h2, andThen_ok,
      (erc_ok_iff _ _ _).mpr h3, andThen_ok,
      (erc_ok_iff _ _ _).mpr h4, andThen_ok,
      andThen_er_cases _ _ _ _ _ _ hg]
    by_cases d1 : refInvalid (gTable tables) "member_id" (memberIdsOf tables) = []
    · rw [if_pos d1, if_pos d1, andThen_er_cases _ _ _ _ _ _ hum1]
      by_cases d2 : refInvalid (umTable tables) "member_id" (memberIdsOf tables) = []
      · rw [if_pos d2, if_pos d2, andThen_er_cases _ _ _ _ _ _ hum2]
        by_cases d3 : refInvalid (umTable tables) "unit_id" (unitIdsOf tables) = []
        · rw [if_pos d3, if_pos d3, andThen_er_cases _ _ _ _ _ _ hma]
          by_cases d4 : refInvalid (maTable tables) "member_id" (memberIdsOf tables) = []
          · rw [if_pos d4, if_pos d4, andThen_er_cases _ _ _ _ _ _ hua]
          · rw [if_neg d4, if_neg d4]
        · rw [if_neg d3, if_neg d3]
      · rw [if_neg d2, if_neg d2]
    · rw [if_neg d1, if_neg d1]
  refine ⟨?_, ?_, fun t c allowed =>
    ⟨refInvalid_mem_iff t c allowed, sortStrings_sorted _⟩⟩
  · constructor
    · rintro ⟨l, c, inv, tg, h⟩
      rw [hres] at h
      split_ifs at h
      all_goals
        first
          | exact Except.noConfusion h
          | (have hD := (refInvalid_ne_nil_iff _ _ _).mp (by assumption)
             tauto)
    · intro hD
      rw [hres]
      split_ifs
      all_goals
        first
          | exact ⟨_, _, _, _, rfl⟩
          | (rcases hD with hD | hD | hD | hD | hD <;>
              exact absurd (by assumption)
                ((refInvalid_ne_nil_iff _ _ _).mpr hD))
  · intro l c inv tg h
    rw [hres] at h
    split_ifs at h
    all_goals
      first
        | exact Except.noConfusion h
        | (simp only [Except.error.injEq, VError.idConsistency.injEq] at h
           obtain ⟨hl, hc, hinv, htg⟩ := h
           subst hl
           subst hc
           subst hinv
           subst htg
           simp)

/-- A table set whose member_generations rows reference unknown members. -/
def fxGensBad : Table :=
  ⟨["member_id", "generation", "is_primary"],
   [[("member_id", .txt "zz"), ("generation", .txt "9"),
     ("is_primary", .txt "T")],
    [("member_id", .txt "aa"), ("generation", .txt "9"),
     ("is_primary", .txt "T")]]⟩

def fxTablesBadRefs : List (String × Table) :=
  [("members", fxMembers), ("member_generations", fxGensBad),
   ("units", fxUnitsT), ("unit_members", fxUMGood)]

unseal String.ltb List.merge List.mergeSort Rat.add Rat.mul Rat.inv Rat.sub Substring.takeWhileAux Substring.takeRightWhileAux String.mapAux in
theorem c4_id_consistency_witness :
    (∃ l c inv tg,
      validate fxTablesBadRefs = .error (.idConsistency l c inv tg)) ∧
    validate fxTablesBadRefs = .error (.idConsistency "member_generations"
      "member_id" ["aa", "zz"] "members") := by
  have h := c4_id_consistency fxTablesBadRefs (by decide) (by decide)
    (by decide) (by decide) (by decide) (by decide) (by decide)
  refine ⟨(h.1).mpr (Or.inl ⟨"zz", by decide, by decide, by decide⟩), ?_⟩
  decide

/-! ## Claim C1 -/

/-- C1 (amended): a validation failure leaves the loader state (bundle cache,
similarity matrix, search index, stored tables) exactly as it was and
surfaces the error to the caller; but a matrix-rebuild failure occurs after
the new bundle has already been persisted and cached, so it leaves the
database tables and the bundle cache replaced while the similarity matrix and
the search index keep their previous values — readers can observe a mixed
state. -/
theorem c1_reload_failure_semantics (s : LoaderState)
    (tables : List (String × Table)) :
    (∀ e, validate tables = .error e →
      load_from_frames s tables = (s, some (.validation e))) ∧
    (∀ bundle, validate tables = .ok bundle →
      build_member_unit_matrix bundle.unit_members = none →
      load_from_frames s tables =
        ({ persist s bundle with cache := some bundle }, some .matrixBuild)) := by
  constructor
  · intro e he
    unfold load_from_frames
    rw [he]
  · intro bundle hb hm
    simp only [load_from_frames, hb, hm]

/-- A table set that passes validation but whose weight `-1` crashes the
matrix rebuild (`1.0 / (1.0 + -1.0)` raises `ZeroDivisionError`). -/
def fxUMNeg : Table :=
  ⟨["unit_id", "member_id", "weight"], [fxUMRow "u1" "m1" (.num (-1))]⟩

def fxTablesNegWeight : List (String × Table) :=
  [("members", fxMembers), ("member_generations", fxGens),
   ("units", fxUnitsT), ("unit_members", fxUMNeg)]

unseal String.ltb List.merge List.mergeSort Rat.add Rat.mul Rat.inv Rat.sub Substring.takeWhileAux Substring.takeRightWhileAux String.mapAux in
/-- C1 counterexample: reloading the weight `-1` table set from a fresh
loader fails in the matrix rebuild, yet the bundle cache has already been
replaced — the failing reload does not leave the previously-current state
untouched. -/
theorem c1_atomicity_counterexample :
    (load_from_frames initialLoaderState fxTablesNegWeight).2 =
      some .matrixBuild ∧
    (load_from_frames initialLoaderState fxTablesNegWeight).1.cache ≠
      initialLoaderState.cache := by
  decide

theorem c1_reload_failure_semantics_witness :
    load_from_frames initialLoaderState fxTablesNoMembers =
      (initialLoaderState, some (.validation (.missingSheet "members"))) :=
  (c1_reload_failure_semantics initialLoaderState fxTablesNoMembers).1
    (.missingSheet "members") (by decide)

/-! ## Claim C7 -/

theorem length_filterMap_of_isSome {α β : Type} (f : α → Option β) :
    ∀ l : List α, (∀ a ∈ l, (f a).isSome) →
      (l.filterMap f).length = l.length := by
  intro l
  induction l with
  | nil => intro _; rfl
  | cons a t ih =>
    intro h
    obtain ⟨b, hb⟩ := Option.isSome_iff_exists.mp (h a (List.mem_cons_self a t))
    simp only [List.filterMap_cons, hb, List.length_cons]
    rw [ih (fun x hx => h x (List.mem_cons_of_mem a hx))]

theorem alistGet_isSome_of_mem_keys {β : Type} (l : List (String × β))
    (k : String) (h : k ∈ l.map Prod.fst) : (alistGet l k).isSome := by
  induction l with
  | nil => simp at h
  | cons a t ih =>
    unfold alistGet
    by_cases ha : a.1 = k
    · rw [List.find?_cons_of_pos _ (by simpa using ha)]
      rfl
    · rw [List.find?_cons_of_neg _ (by simpa using ha)]
      refine ih ?_
      rw [List.map_cons, List.mem_cons] at h
      rcases h with h | h
      · exact absurd h.symm ha
      · exact h

/-- C7 (amended): with a keyword, the result is the plain offset/limit window
of the ranked candidate list, facet-filtered afterwards, and never exceeds
`limit` entries; without a keyword the ranked SQL result is discarded and the
*full* member list is used with facet filters only — offset and limit are not
applied, and with no facet filters every member is returned regardless of
`limit`. -/
theorem c7_search_pagination (meta : List (String × SvcMeta))
    (gens : List (String × Finset String)) (ftsRanked : String → List String)
    (q : MemberSearchQuery) :
    (q.keyword.getD "" ≠ "" →
      search meta gens ftsRanked q =
        apply_filters meta gens
          (((ftsRanked (q.keyword.getD "")).drop q.offset).take q.limit) q ∧
      (search meta gens ftsRanked q).length ≤ q.limit) ∧
    (q.keyword.getD "" = "" →
      search meta gens ftsRanked q =
        apply_filters meta gens (meta.map Prod.fst) q ∧
      (q.branch.getD [] = [] → q.status.getD [] = [] →
        q.generation.getD [] = [] →
        (search meta gens ftsRanked q).length = meta.length)) := by
  constructor
  · intro hkw
    have heq : search meta gens ftsRanked q =
        apply_filters meta gens
          (((ftsRanked (q.keyword.getD "")).drop q.offset).take q.limit) q := by
      show apply_filters meta gens
        (if q.keyword.getD "" ≠ "" then
          ((ftsRanked (q.keyword.getD "")).drop q.offset).take q.limit
        else meta.map Prod.fst) q = _
      rw [if_pos hkw]
    refine ⟨heq, ?_⟩
    rw [heq]
    unfold apply_filters
    calc (List.filterMap _ _).length
        ≤ (((ftsRanked (q.keyword.getD "")).drop q.offset).take q.limit).length :=
          List.length_filterMap_le _ _
      _ ≤ q.limit := List.length_take_le _ _
  · intro hkw
    have heq : search meta gens ftsRanked q =
        apply_filters meta gens (meta.map Prod.fst) q := by
      show apply_filters meta gens
        (if q.keyword.getD "" ≠ "" then
          ((ftsRanked (q.keyword.getD "")).drop q.offset).take q.limit
        else meta.map Prod.fst) q = _
      rw [if_neg (by simpa using hkw)]
    refine ⟨heq, ?_⟩
    intro hb hs hg
    rw [heq]
    unfold apply_filters
    rw [hb, hs, hg]
    have hlen := length_filterMap_of_isSome
      (fun mid =>
        match alistGet meta mid with
        | none => none
        | some m =>
          if ([] : List String) ≠ [] ∧ ¬ List.contains [] m.branch then none
          else if ([] : List String) ≠ [] ∧ ¬ List.contains [] m.status then none
          else if (List.toFinset ([] : List String)) ≠ ∅ ∧
              ((alistGet gens mid).getD ∅) ∩ (List.toFinset ([] : List String)) = ∅
            then none
          else some m)
      (meta.map Prod.fst) ?_
    · rw [hlen, List.length_map]
    · intro mid hmid
      obtain ⟨m, hm⟩ := Option.isSome_iff_exists.mp
        (alistGet_isSome_of_mem_keys meta mid hmid)
      simp [hm]

/-- A two-member search-service metadata fixture. -/
def fxMetaC7 : List (String × SvcMeta) :=
  [("m1", ⟨"m1", "A", "", "", ""⟩), ("m2", ⟨"m2", "B", "", "", ""⟩)]

/-- A no-keyword query with a valid pydantic limit of 1. -/
def fxQueryC7 : MemberSearchQuery := ⟨none, none, none, none, 1, 0⟩

/-- C7 counterexample: with no keyword and `limit = 1` (a valid query), the
search returns both members — the offset/limit of the query is not applied to
the unranked full member list, contradicting the claim. -/
theorem c7_pagination_counterexample :
    1 ≤ fxQueryC7.limit ∧ fxQueryC7.limit ≤ 100 ∧
    (search fxMetaC7 [] (fun _ => []) fxQueryC7).length = 2 ∧
    ¬ ((search fxMetaC7 [] (fun _ => []) fxQueryC7).length ≤
      fxQueryC7.limit) := by
  decide

/-- A keyword query for the C7 witness. -/
def fxQueryC7kw : MemberSearchQuery := ⟨some "x", none, none, none, 1, 0⟩

theorem c7_search_pagination_witness :
    search fxMetaC7 [] (fun _ => ["m1", "m2"]) fxQueryC7kw =
      apply_filters fxMetaC7 []
        ((["m1", "m2"].drop fxQueryC7kw.offset).take fxQueryC7kw.limit)
        fxQueryC7kw ∧
    (search fxMetaC7 [] (fun _ => ["m1", "m2"]) fxQueryC7kw).length ≤
      fxQueryC7kw.limit :=
  (c7_search_pagination fxMetaC7 [] (fun _ => ["m1", "m2"]) fxQueryC7kw).1
    (by decide)

/-! ## Claim C9 -/

theorem andThen_ok_inv {ε β : Type} {a : Except ε Unit} {b : Except ε β}
    {x : β} (h : andThen a b = .ok x) : b = .ok x := by
  unfold andThen at h
  cases a with
  | error e => cases h
  | ok u => exact h

theorem fold_reindex_mem (mA mG : Table) :
    ∀ (rows : List Row) (st : SearchState) (p : String × SvcMeta),
      p ∈ (rows.foldl (reindexRowStep mA mG) st).2.1 →
      p ∈ st.2.1 ∨ ∃ r ∈ rows, p = (svcMemberId r, svcMetaOf r) := by
  intro rows
  induction rows with
  | nil => intro st p h; exact Or.inl h
  | cons r t ih =>
    intro st p h
    rw [List.foldl_cons] at h
    rcases ih _ p h with h1 | ⟨r', hr', hp⟩
    · rcases mem_insertOrReplace h1 with h2 | h2
      · exact Or.inl h2
      · exact Or.inr ⟨r, List.mem_cons_self r t, h2⟩
    · exact Or.inr ⟨r', List.mem_cons_of_mem _ hr', hp⟩

theorem reindex_meta_spec (members mA mG : Table) :
    ∀ p ∈ (reindex members mA mG).2.1, ∃ r ∈ members.rows,
      p.1 = svcMemberId r ∧ p.2 = svcMetaOf r := by
  intro p hp
  rcases fold_reindex_mem mA mG members.rows ([], [], []) p hp with
    h | ⟨r, hr, hp2⟩
  · exact absurd h (List.not_mem_nil p)
  · exact ⟨r, hr, by rw [hp2], by rw [hp2]⟩

theorem fold_member_mem :
    ∀ (rows : List Row) (st : MemberLoopState) (p : String × AppMemberMeta),
      p ∈ (rows.foldl memberRowStep st).1 →
      p ∈ st.1 ∨
        ∃ r ∈ rows, appMemberId r ≠ "" ∧ p = (appMemberId r, appMetaOf r) := by
  intro rows
  induction rows with
  | nil => intro st p h; exact Or.inl h
  | cons r t ih =>
    intro st p h
    rw [List.foldl_cons] at h
    rcases ih _ p h with h1 | ⟨r', hr', hne, hp⟩
    · by_cases hm : appMemberId r = ""
      · left
        simp only [memberRowStep, if_pos hm] at h1
        exact h1
      · simp only [memberRowStep, if_neg hm] at h1
        rcases mem_insertOrReplace h1 with h2 | h2
        · exact Or.inl h2
        · exact Or.inr ⟨r, List.mem_cons_self r t, hm, h2⟩
    · exact Or.inr ⟨r', List.mem_cons_of_mem _ hr', hne, hp⟩

theorem genRowStep_meta_proj (st : List (String × AppMemberMeta) × Finset String)
    (r : Row) (p : String × AppMemberMeta) (h : p ∈ (genRowStep st r).1) :
    ∃ p₀ ∈ st.1, p.1 = p₀.1 ∧
      p.2.display_name = p₀.2.display_name ∧
      p.2.member_id = p₀.2.member_id := by
  simp only [genRowStep] at h
  split at h
  · exact ⟨p, h, rfl, rfl, rfl⟩
  · obtain ⟨p₀, hp₀, hpe⟩ := List.mem_map.mp h
    by_cases hk : p₀.1 = (((rowGet r "member_id" (.txt "")).toStr).trim)
    · rw [if_pos hk] at hpe
      exact ⟨p₀, hp₀, by rw [← hpe, hk], by rw [← hpe], by rw [← hpe]⟩
    · rw [if_neg hk] at hpe
      exact ⟨p₀, hp₀, by rw [← hpe], by rw [← hpe], by rw [← hpe]⟩

theorem fold_gen_meta_proj :
    ∀ (rows : List Row) (st : List (String × AppMemberMeta) × Finset String)
      (p : String × AppMemberMeta), p ∈ (rows.foldl genRowStep st).1 →
      ∃ p₀ ∈ st.1, p.1 = p₀.1 ∧
        p.2.display_name = p₀.2.display_name ∧
        p.2.member_id = p₀.2.member_id := by
  intro rows
  induction rows with
  | nil => intro st p h; exact ⟨p, h, rfl, rfl, rfl⟩
  | cons r t ih =>
    intro st p h
    rw [List.foldl_cons] at h
    obtain ⟨p₁, hp₁, h1, h2, h3⟩ := ih _ p h
    obtain ⟨p₀, hp₀, g1, g2, g3⟩ := genRowStep_meta_proj st r p₁ hp₁
    exact ⟨p₀, hp₀, h1.trans g1, h2.trans g2, h3.trans g3⟩

theorem prepare_data_ok_inv {tables : List (String × Table)}
    {p : PreparedData} (h : prepare_data tables = .ok p) :
    p.member_meta =
      ((fillTable ((lookupTable tables "member_generations").getD
        ⟨[], []⟩)).rows.foldl genRowStep
        (((fillTable ((lookupTable tables "members").getD ⟨[], []⟩)).rows.foldl
          memberRowStep ([], [], ∅, ∅)).1, ∅)).1 ∧
    p.unit_members_map =
      ((lookupTable tables "unit_members").getD ⟨[], []⟩).rows.foldl
        (unitMemberRowStep p.member_meta) [] := by
  unfold prepare_data at h
  have h2 := andThen_ok_inv (andThen_ok_inv (andThen_ok_inv (andThen_ok_inv h)))
  have h3 := Except.ok.inj h2
  rw [← h3]
  exact ⟨rfl, rfl⟩

/-- C9 (amended): in `prepare_data`, the stored display name of every member
follows `str(...).strip() or member_id` — in particular a blank (empty or
whitespace-only) `display_name` falls back to the member id; in
`SearchService.reindex`, however, the display name is stored verbatim
(`str(row.get("display_name", mid))` without strip or blank fallback), so a
blank display name stays blank in the member metadata returned by member
search. -/
theorem c9_display_name_fallback (tables : List (String × Table)) :
    (∀ p, prepare_data tables = .ok p →
      ∀ mid meta, (mid, meta) ∈ p.member_meta →
        ∃ r ∈ (fillTable ((lookupTable tables "members").getD ⟨[], []⟩)).rows,
          mid = appMemberId r ∧
          meta.display_name = appDisplay r (appMemberId r)) ∧
    (∀ (r : Row) (mid : String),
      ((rowGet r "display_name" (.txt mid)).toStr).trim = "" →
      appDisplay r mid = mid) ∧
    (∀ members mA mG : Table, ∀ q ∈ (reindex members mA mG).2.1,
      ∃ r ∈ members.rows, q.1 = svcMemberId r ∧
        (q.2).display_name = svcDisplay r) := by
  refine ⟨?_, ?_, ?_⟩
  · intro p hp mid meta hmem
    rw [(prepare_data_ok_inv hp).1] at hmem
    obtain ⟨p₀, hp₀, hfst, hdisp, hmid⟩ := fold_gen_meta_proj _ _ _ hmem
    rcases fold_member_mem _ _ _ hp₀ with h | ⟨r, hr, hne, hpr⟩
    · exact absurd h (List.not_mem_nil p₀)
    · refine ⟨r, hr, ?_, ?_⟩
      · rw [show mid = p₀.1 from hfst, hpr]
      · rw [show meta.display_name = p₀.2.display_name from hdisp, hpr]
        rfl
  · intro r mid h
    unfold appDisplay
    simp [h]
  · intro members mA mG q hq
    obtain ⟨r, hr, h1, h2⟩ := reindex_meta_spec members mA mG q hq
    exact ⟨r, hr, h1, by rw [h2]; rfl⟩

/-- A members table with one member whose display_name is blank. -/
def fxMembersBlank : Table :=
  ⟨["member_id", "display_name", "alias", "branch", "status"],
   [[("member_id", .txt "m1"), ("display_name", .txt ""),
     ("alias", .txt ""), ("branch", .txt ""), ("status", .txt "")]]⟩

def fxGensEmpty : Table :=
  ⟨["member_id", "generation", "is_primary"], []⟩

def fxTablesBlankDisplay : List (String × Table) :=
  [("members", fxMembersBlank), ("member_generations", fxGensEmpty),
   ("units", fxUnitsT), ("unit_members", fxUMGood)]

unseal String.ltb List.merge List.mergeSort Rat.add Rat.mul Rat.inv Rat.sub Substring.takeWhileAux Substring.takeRightWhileAux String.mapAux in
/-- C9 counterexample: for a member with blank display_name, `prepare_data`
stores the member id, but `SearchService.reindex` stores the blank string —
the member metadata returned by member search does not equal the member
id. -/
theorem c9_blank_display_counterexample :
    ((alistGet (reindex fxMembersBlank emptyMemberAliases fxGensEmpty).2.1
      "m1").map (fun m => m.display_name)) = some "" ∧
    (match prepare_data fxTablesBlankDisplay with
      | .ok p => (alistGet p.member_meta "m1").map (fun m => m.display_name)
      | .error _ => none) = some "m1" ∧
    ("" : String) ≠ "m1" := by
  decide

theorem c9_display_name_fallback_witness :
    ∃ r ∈ fxMembersBlank.rows,
      (("m1", (⟨"m1", "", "", "", ""⟩ : SvcMeta)) : String × SvcMeta).1 =
        svcMemberId r ∧
      ((⟨"m1", "", "", "", ""⟩ : SvcMeta) : SvcMeta).display_name =
        svcDisplay r :=
  (c9_display_name_fallback []).2.2 fxMembersBlank emptyMemberAliases
    fxGensEmpty ("m1", ⟨"m1", "", "", "", ""⟩) (by decide)

/-! ## Claim C8 -/

theorem rowGet_setCell_self (r : Row) (c : String) (v : Cell) (d : Cell) :
    rowGet (setCell r c v) c d = v := by
  unfold rowGet setCell
  rw [List.find?_cons_of_pos _ (by simp)]
  rfl

theorem validate_ok_inv {tables : List (String × Table)} {bundle : DataBundle}
    (h : validate tables = .ok bundle) : bundle = validatedBundle tables := by
  cases hfind : REQUIRED_SHEETS.find? (fun k => (lookupTable tables k).isNone) with
  | some k =>
    rw [validate_eq_missing hfind] at h
    cases h
  | none =>
    rw [validate_eq_checks hfind] at h
    have h9 := andThen_ok_inv (andThen_ok_inv (andThen_ok_inv (andThen_ok_inv
      (andThen_ok_inv (andThen_ok_inv (andThen_ok_inv (andThen_ok_inv
        (andThen_ok_inv h))))))))
    exact (Except.ok.inj h9).symm

theorem bundle_weights_numeric {tables : List (String × Table)}
    {bundle : DataBundle} (h : validate tables = .ok bundle) :
    ∀ r ∈ bundle.unit_members.rows, ∃ q, rowGet r "weight" Cell.na = Cell.num q := by
  rw [validate_ok_inv h]
  intro r hr
  obtain ⟨r₀, hr₀, hre⟩ := List.mem_map.mp hr
  rw [← hre]
  exact ⟨_, rowGet_setCell_self r₀ "weight" _ Cell.na⟩

theorem build_ids_complete {t : Table} {r : Row} (hr : r ∈ t.rows)
    {mids uids : List String} {mat : List (List ℚ)}
    (hb : build_member_unit_matrix t = some (mids, uids, mat)) :
    umMemberId r ∈ mids ∧ umUnitId r ∈ uids := by
  unfold build_member_unit_matrix at hb
  by_cases hemp : t.rows.isEmpty = true
  · rw [List.isEmpty_iff.mp hemp] at hr
    exact absurd hr (List.not_mem_nil r)
  · rw [if_neg hemp] at hb
    cases hfold : t.rows.foldl (buildStep (buildMemberIds t) (buildUnitIds t))
        (some (buildMat0 t)) with
    | none => rw [hfold] at hb; cases hb
    | some m =>
      rw [hfold] at hb
      simp only [Option.some.injEq, Prod.mk.injEq] at hb
      obtain ⟨h1, h2, h3⟩ := hb
      constructor
      · rw [← h1]
        unfold buildMemberIds
        rw [sortStrings_mem, List.mem_dedup]
        exact List.mem_map.mpr ⟨r, hr, rfl⟩
      · rw [← h2]
        unfold buildUnitIds
        rw [sortStrings_mem, List.mem_dedup]
        exact List.mem_map.mpr ⟨r, hr, rfl⟩

theorem umStep_mono (meta : List (String × AppMemberMeta))
    (st : List (String × List (String × Weight))) (r : Row) (uid : String)
    (x : String × Weight) (h : x ∈ (alistGet st uid).getD []) :
    x ∈ (alistGet (unitMemberRowStep meta st r) uid).getD [] := by
  simp only [unitMemberRowStep]
  split
  · exact h
  · by_cases hu : uid = ((rowGet r "unit_id" (.txt "")).toStr).trim
    · rw [hu] at h ⊢
      rw [alistGet_insertOrReplace_self]
      exact List.mem_append_left _ h
    · rw [alistGet_insertOrReplace_other _ _ _ _ hu]
      exact h

theorem umFold_mono (meta : List (String × AppMemberMeta)) :
    ∀ (rows : List Row) (st : List (String × List (String × Weight)))
      (uid : String) (x : String × Weight),
      x ∈ (alistGet st uid).getD [] →
      x ∈ (alistGet (rows.foldl (unitMemberRowStep meta) st) uid).getD [] := by
  intro rows
  induction rows with
  | nil => intro st uid x h; exact h
  | cons r t ih =>
    intro st uid x h
    rw [List.foldl_cons]
    exact ih _ uid x (umStep_mono meta st r uid x h)

theorem umFold_adds (meta : List (String × AppMemberMeta)) :
    ∀ (rows : List Row) (st : List (String × List (String × Weight)))
      (r : Row), r ∈ rows →
      ((rowGet r "unit_id" (Cell.txt "")).toStr).trim ≠ "" →
      ((rowGet r "member_id" (Cell.txt "")).toStr).trim ≠ "" →
      ¬ (alistGet meta (((rowGet r "member_id" (Cell.txt "")).toStr).trim)).isNone →
      ((((rowGet r "member_id" (Cell.txt "")).toStr).trim),
        coerceWeightApp (rowGet r "weight" (Cell.num 9999))) ∈
        (alistGet (rows.foldl (unitMemberRowStep meta) st)
          (((rowGet r "unit_id" (Cell.txt "")).toStr).trim)).getD [] := by
  intro rows
  induction rows with
  | nil => intro st r h; exact absurd h (List.not_mem_nil r)
  | cons r₀ t ih =>
    intro st r hr huid hmid hsome
    rw [List.foldl_cons]
    rcases List.mem_cons.mp hr with rfl | hr
    · refine umFold_mono meta t _ _ _ ?_
      simp only [unitMemberRowStep]
      rw [if_neg (by
        push_neg
        exact ⟨huid, hmid, by simpa using hsome⟩)]
      rw [alistGet_insertOrReplace_self]
      exact List.mem_append_right _ (List.mem_singleton.mpr rfl)
    · exact ih _ r hr huid hmid hsome

/-- C8 (amended): weight handling never makes loading fail and never excludes
a membership.  A non-numeric cell is coerced to the sentinel 9999 in both the
loader (`pd.to_numeric(...).fillna(9999)`) and `prepare_data`
(`float` raising); the loader also turns a *missing* (NaN) weight into 9999,
so every weight in a validated bundle is numeric, and a sentinel weight
contributes 1/10000 to the feature matrix, whose row/column index always
contains every edge's ids.  In `prepare_data`, however, a missing weight
parses as NaN (`float(nan)` does not raise) and is kept as NaN rather than
9999; the membership still appears in the unit membership map. -/
theorem c8_weight_sentinel_not_exclusion :
    (∀ c : Cell, (∀ q : ℚ, c ≠ Cell.num q) → toNumericSentinel c = 9999) ∧
    (∀ s : String, coerceWeightApp (Cell.txt s) = Weight.val 9999) ∧
    (∀ tables bundle, validate tables = .ok bundle →
      ∀ r ∈ bundle.unit_members.rows,
        ∃ q, rowGet r "weight" Cell.na = Cell.num q) ∧
    (edgeValue (Cell.num 9999) = some (1/10000)) ∧
    (∀ (t : Table) (r : Row), r ∈ t.rows →
      ∀ mids uids mat, build_member_unit_matrix t = some (mids, uids, mat) →
      umMemberId r ∈ mids ∧ umUnitId r ∈ uids) ∧
    (∀ tables p, prepare_data tables = .ok p →
      ∀ r ∈ ((lookupTable tables "unit_members").getD ⟨[], []⟩).rows,
        ((rowGet r "unit_id" (Cell.txt "")).toStr).trim ≠ "" →
        ((rowGet r "member_id" (Cell.txt "")).toStr).trim ≠ "" →
        ¬ (alistGet p.member_meta
          (((rowGet r "member_id" (Cell.txt "")).toStr).trim)).isNone →
        ((((rowGet r "member_id" (Cell.txt "")).toStr).trim),
          coerceWeightApp (rowGet r "weight" (Cell.num 9999))) ∈
          (alistGet p.unit_members_map
            (((rowGet r "unit_id" (Cell.txt "")).toStr).trim)).getD []) := by
  refine ⟨?_, fun s => rfl, fun tables bundle h => bundle_weights_numeric h,
    ?_, fun t r hr mids uids mat hb => build_ids_complete hr hb, ?_⟩
  · intro c hc
    cases c with
    | num q => exact absurd rfl (hc q)
    | txt s => rfl
    | na => rfl
  · rw [edgeValue_num]
    norm_num
  · intro tables p hp r hr huid hmid hsome
    rw [(prepare_data_ok_inv hp).2]
    refine umFold_adds p.member_meta _ [] r hr huid hmid hsome

/-- A unit_members table with a missing (NaN) weight cell. -/
def fxUMNa : Table :=
  ⟨["unit_id", "member_id", "weight"],
   [[("unit_id", .txt "u1"), ("member_id", .txt "m1"), ("weight", Cell.na)]]⟩

def fxTablesNaWeight : List (String × Table) :=
  [("members", fxMembers), ("member_generations", fxGens),
   ("units", fxUnitsT), ("unit_members", fxUMNa)]

unseal String.ltb List.merge List.mergeSort Rat.add Rat.mul Rat.inv Rat.sub Substring.takeWhileAux Substring.takeRightWhileAux String.mapAux in
/-- C8 counterexample: in `prepare_data` a missing (NaN) weight is *not*
normalized to 9999 — `float(nan)` parses, so the stored weight is NaN.  The
membership is still present (with weight NaN). -/
theorem c8_missing_weight_counterexample :
    (match prepare_data fxTablesNaWeight with
      | .ok p => alistGet p.unit_members_map "u1"
      | .error _ => none) = some [("m1", Weight.nan)] ∧
    Weight.nan ≠ Weight.val 9999 := by
  decide

unseal String.ltb List.merge List.mergeSort Rat.add Rat.mul Rat.inv Rat.sub Substring.takeWhileAux Substring.takeRightWhileAux String.mapAux in
theorem c8_weight_sentinel_not_exclusion_witness :
    toNumericSentinel Cell.na = 9999 ∧
    (umMemberId (fxUMRow "u1" "m1" (Cell.num 1)) ∈ ["m1", "m2", "m3"] ∧
     umUnitId (fxUMRow "u1" "m1" (Cell.num 1)) ∈ ["u1", "u2"]) :=
  ⟨c8_weight_sentinel_not_exclusion.1 Cell.na (fun q h => by cases h),
   (c8_weight_sentinel_not_exclusion.2.2.2.2.1 fxUMGood
     (fxUMRow "u1" "m1" (Cell.num 1)) (by decide)
     ["m1", "m2", "m3"] ["u1", "u2"] [[1/2, 1/4], [1/3, 0], [0, 1/2]]
     (by decide))⟩

end UnitSearch
